import Mathlib

/-!
Verification development for the snark-setup powers-of-tau core.

The Rust sources are embedded shallowly:
* machine integers (`usize`) become `Nat`; where Rust subtraction can wrap
  (release-mode two's-complement behaviour) we model it explicitly modulo
  `2 ^ 64`;
* byte buffers become `List Nat`, curve points become exponents over the
  prime-order scalar field `ZMod p` (the pairing is then multiplication of
  exponents, which is exactly the algebra the ratio checks rely on);
* fallible code returns `Except VError`.

`powersoftau/src/parameters.rs` in the crate defines `CeremonyParams`
without a contribution mode, while `powersoftau/src/raw/raw_accumulator.rs`
is written against an extended variant carrying `contribution_mode` and
`chunk_size` fields whose definition is not part of the crate's sources;
the extended variant, together with the helpers of the `snark-utils`
support crate (serialization, `check_same_ratio`, `batch_exp`,
`generate_powers_of_tau`, the keypair), is modelled from the spec where
noted.
-/

set_option maxHeartbeats 1000000

/-- Wrap-around constant of 64-bit unsigned arithmetic. -/
def U64 : ℕ := 2 ^ 64

/-- Wrapping (release-mode) `usize` subtraction: `a - b` reduced modulo `2^64`.
For `a, b < 2^64` this is the two's-complement result of the Rust `-`. -/
def wsub (a b : ℕ) : ℕ := (a + (U64 - b % U64)) % U64

/-- From `parameters.rs`: `chunk_element_sizes(batch_size, chunk_index,
powers_g1_length, powers_length)`.  Returns the pair
`(g1_els_in_chunk, other_els_in_chunk)`.  The G1 branch performs a plain
`usize` subtraction `powers_g1_length - start`, modelled with `wsub`. -/
def chunk_element_sizes (batch_size chunk_index powers_g1_length powers_length : ℕ) : ℕ × ℕ :=
  let start := chunk_index * batch_size
  let endv := (chunk_index + 1) * batch_size
  let g1_els_in_chunk :=
    if powers_g1_length < endv then wsub powers_g1_length start else endv - start
  let other_els_in_chunk :=
    if powers_length < endv ∧ powers_length ≤ start then 0
    else if powers_length < endv then powers_length - start
    else endv - start
  (g1_els_in_chunk, other_els_in_chunk)

/-- From `parameters.rs`: the byte sizes of the group elements of a curve. -/
structure CurveParams where
  g1 : ℕ
  g2 : ℕ
  g1_compressed : ℕ
  g2_compressed : ℕ
deriving DecidableEq, Repr

/-- Byte sizes of BLS12-377 elements, as asserted by the crate's
`params_sizes` test: `|G1| = 96`, `|G2| = 192`, compressed `48` / `96`. -/
def bls12_377_curve : CurveParams := ⟨96, 192, 48, 96⟩

/-- From `parameters.rs`: whether the serialization is compressed. -/
inductive UseCompression
  | yes
  | no
deriving DecidableEq, Repr

/-- From `parameters.rs`: the ceremony parameters (the variant actually
defined in the crate's `parameters.rs`, without a contribution mode). -/
structure CeremonyParams where
  chunk_index : ℕ
  curve : CurveParams
  powers_g1_length : ℕ
  powers_length : ℕ
  size : ℕ
  batch_size : ℕ
  public_key_size : ℕ
  accumulator_size : ℕ
  contribution_size : ℕ
  hash_size : ℕ
deriving DecidableEq, Repr

/-- From `parameters.rs`: `CeremonyParams::new_with_curve`. -/
def new_with_curve (chunk_index : ℕ) (curve : CurveParams) (size batch_size : ℕ) :
    CeremonyParams :=
  let hash_size := 64
  let powers_length := 2 ^ size
  let powers_g1_length := 2 * powers_length - 1
  let els := chunk_element_sizes batch_size chunk_index powers_g1_length powers_length
  let g1_els_size := els.1
  let other_els_size := els.2
  let accumulator_size :=
    g1_els_size * curve.g1 +
    other_els_size * (curve.g2 + curve.g1 * 2) +
    curve.g2 +
    2 * curve.g1 +
    2 * curve.g2 +
    hash_size
  let public_key_size := 3 * curve.g2 + 6 * curve.g1
  let contribution_size :=
    g1_els_size * curve.g1_compressed +
    other_els_size * (curve.g2_compressed + curve.g1_compressed * 2) +
    curve.g2_compressed +
    2 * curve.g1_compressed +
    2 * curve.g2_compressed +
    hash_size +
    public_key_size
  ⟨chunk_index, curve, powers_g1_length, powers_length, size, batch_size,
    public_key_size, accumulator_size, contribution_size, hash_size⟩

/-- From `parameters.rs`: `CeremonyParams::new`. -/
def CeremonyParams.new (chunk_index size batch_size : ℕ) : CeremonyParams :=
  new_with_curve chunk_index bls12_377_curve size batch_size

/-- From `parameters.rs`: `specialize_to_chunk` clones the parameters and
overwrites only the `chunk_index` field. -/
def specialize_to_chunk (p : CeremonyParams) (chunk_index : ℕ) : CeremonyParams :=
  { p with chunk_index := chunk_index }

/-- From `parameters.rs`: `get_length`. -/
def get_length (p : CeremonyParams) (compressed : UseCompression) : ℕ :=
  match compressed with
  | .yes => p.contribution_size - p.public_key_size
  | .no => p.accumulator_size

/-- From `cli_common/combine.rs`: the expected byte length of a response
file for the chunk parameters obtained via `specialize_to_chunk`. -/
def expected_response_length (p : CeremonyParams) (compressed : UseCompression) : ℕ :=
  match compressed with
  | .yes => p.contribution_size
  | .no => p.accumulator_size + p.public_key_size

/-- From `raw_accumulator.rs` `split`: byte lengths of the five sub-buffers
`[TauG1, TauG2, AlphaG1, BetaG1, BetaG2]` carved out of a chunk buffer
(after the 64-byte hash prefix), for element sizes `g1s`, `g2s`. -/
def split_chunk_lengths (g1s g2s b k G L : ℕ) : ℕ × ℕ × ℕ × ℕ × ℕ :=
  let els := chunk_element_sizes b k G L
  (g1s * els.1, g2s * els.2, g1s * els.2, g1s * els.2, g2s)

/-- Modelled from the spec: Rust `usize::next_power_of_two` (standard
library, external to the crate) returns the smallest power of two greater
than or equal to its argument, and `1` for `0`. -/
def next_power_of_two (n : ℕ) : ℕ := 2 ^ Nat.clog 2 n

/-- From `phase2-cli/src/new_challenge.rs`: the phase-2 domain size
`max(num_constraints, num_witness_variables + num_instance_variables)
.next_power_of_two()`. -/
def new_challenge_phase2_size
    (num_constraints num_witness_variables num_instance_variables : ℕ) : ℕ :=
  next_power_of_two (max num_constraints (num_witness_variables + num_instance_variables))

/-- Error kinds surfaced by the raw accumulator engine, following the
error taxonomy used by `raw_accumulator.rs` (`Error` / `VerificationError`
of the support crate). -/
inductive ElementKind
  | tauG1
  | tauG2
  | alphaG1
  | betaG1
  | betaG2
deriving DecidableEq, Repr

/-- The contexts in which `check_same_ratio` is invoked by
`verify_pok_and_correctness` (the source tags each with a string). -/
inductive RatioContext
  | pokTau
  | pokAlpha
  | pokBeta
  | beforeAfterTauG1
  | beforeAfterTauG2
  | beforeAfterAlphaBeta0
  | beforeAfterBetaG2
deriving DecidableEq, Repr

/-- Typed errors of the phase-1 engine. -/
inductive VError
  | invalidChunk
  | invalidLength
  | pointAtInfinity
  | incorrectSubgroup
  | invalidGenerator (el : ElementKind)
  | invalidRatio (ctx : RatioContext)
deriving DecidableEq, Repr

/-- From `parameters.rs` (the extended variant): the contribution mode. -/
inductive ContributionMode
  | full
  | chunked
deriving DecidableEq, Repr

/-- Modelled from the spec: `raw_accumulator.rs` is written against
ceremony parameters extended with `contribution_mode`, `chunk_index` and
`chunk_size` fields; that extended struct is not part of the crate's
`parameters.rs`, so only the fields the accumulator code reads are kept. -/
structure ChunkedParams where
  contribution_mode : ContributionMode
  chunk_index : ℕ
  chunk_size : ℕ
  batch_size : ℕ
  powers_length : ℕ
  powers_g1_length : ℕ
deriving DecidableEq, Repr

/-- The ascending index range `[mn, mx)` as a list. -/
def rangeList (mn mx : ℕ) : List ℕ := List.range' mn (mx - mn)

/-- Consecutive groups of `c` indices, as produced by itertools'
`chunks(c)` over an iterator (fuel-driven structural recursion; the fuel
is an upper bound on the number of steps, sufficient whenever `c ≥ 1`). -/
def groupsAux (c : ℕ) : ℕ → List ℕ → List (List ℕ)
  | 0, _ => []
  | _ + 1, [] => []
  | fuel + 1, x :: xs => (x :: xs).take c :: groupsAux c fuel ((x :: xs).drop c)

/-- `chunks(c)` over a list. -/
def groupsOf (c : ℕ) (xs : List ℕ) : List (List ℕ) := groupsAux c xs.length xs

/-- From `iter_chunk`: the exclusive upper end of the window built from a
group whose largest element is `e`, ensuring a one-element overlap between
successive windows (`end + 1` for the final group, `end + 2` otherwise). -/
def windowEnd (mx e : ℕ) : ℕ := if mx - 1 ≤ e then e + 1 else e + 2

/-- From `iter_chunk`: the `(start, end)` window derived from a group via
`minmax()`; an empty group (`MinMaxResult::NoElements`) yields `none`,
which the caller turns into `Error::InvalidChunk`. -/
def minmaxWindow (mx : ℕ) (g : List ℕ) : Option (ℕ × ℕ) :=
  match g.head?, g.getLast? with
  | some s, some e => some (s, windowEnd mx e)
  | _, _ => none

/-- From `iter_chunk`: the index range iterated over, depending on the
contribution mode. -/
def iter_chunk_range (P : ChunkedParams) : ℕ × ℕ :=
  match P.contribution_mode with
  | .chunked =>
    (P.chunk_index * P.chunk_size,
      min ((P.chunk_index + 1) * P.chunk_size) P.powers_g1_length)
  | .full => (0, P.powers_g1_length)

/-- The groups of size `batch_size - 1` that `iter_chunk` iterates over. -/
def iter_chunk_groups (P : ChunkedParams) : List (List ℕ) :=
  groupsOf (P.batch_size - 1) (rangeList (iter_chunk_range P).1 (iter_chunk_range P).2)

/-- The windows `iter_chunk` would pass to its action, or `none` if some
group has no `minmax` (the `InvalidChunk` case). -/
def iter_chunk_windows (P : ChunkedParams) : Option (List (ℕ × ℕ)) :=
  (iter_chunk_groups P).mapM (minmaxWindow (iter_chunk_range P).2)

/-- Sequencing of fallible actions over a list, stopping at the first
error (the semantics of `collect::<Result<_>>()` over a `map`). -/
def exceptForM {α : Type} (f : α → Except VError Unit) : List α → Except VError Unit
  | [] => Except.ok ()
  | a :: l =>
    match f a with
    | Except.error e => Except.error e
    | Except.ok _ => exceptForM f l

/-- State-passing fold of fallible actions, stopping at the first error. -/
def exceptFoldM {σ α : Type} (g : σ → α → Except VError σ) : σ → List α → Except VError σ
  | s, [] => Except.ok s
  | s, a :: l =>
    match g s a with
    | Except.error e => Except.error e
    | Except.ok s2 => exceptFoldM g s2 l

/-- From `raw_accumulator.rs`: `iter_chunk(parameters, action)`.  Errors of
the action propagate; a group without `minmax` yields `InvalidChunk`. -/
def iter_chunk (P : ChunkedParams) (action : ℕ → ℕ → Except VError Unit) :
    Except VError Unit :=
  exceptForM
    (fun g =>
      match minmaxWindow (iter_chunk_range P).2 g with
      | none => Except.error VError.invalidChunk
      | some w => action w.1 w.2)
    (iter_chunk_groups P)

/-- `iter_chunk` specialised to a state-passing action that cannot fail:
the translation of the source pattern where the action mutates the output
buffers and always returns `Ok(())`. -/
def iter_chunk_fold {σ : Type} (P : ChunkedParams) (step : σ → ℕ → ℕ → σ) (init : σ) :
    Except VError σ :=
  exceptFoldM
    (fun s g =>
      match minmaxWindow (iter_chunk_range P).2 g with
      | none => Except.error VError.invalidChunk
      | some w => Except.ok (step s w.1 w.2))
    init (iter_chunk_groups P)

/-- The window list of `iter_chunk` in closed recursive form: one window
per group of `c` indices, starting at `start`. -/
def windowsFrom (c : ℕ) : ℕ → ℕ → ℕ → List (ℕ × ℕ)
  | 0, _, _ => []
  | fuel + 1, start, mx =>
    if start < mx then
      (start, windowEnd mx (min (start + c) mx - 1)) :: windowsFrom c fuel (start + c) mx
    else []

/-- The windows covering `[mn, mx)` in groups of `c`. -/
def windowsList (c mn mx : ℕ) : List (ℕ × ℕ) := windowsFrom c (mx - mn) mn mx

/-- Overwrite `buf[off], buf[off+1], …` with the elements of `data`
(writes past the end of `buf` are dropped, as `List.set` is).  This is the
byte/element-level model of writing into a mutable sub-slice. -/
def writeAt {α : Type} : List α → ℕ → List α → List α
  | buf, _, [] => buf
  | buf, off, d :: ds => writeAt (buf.set off d) (off + 1) ds

/-- The sub-list `xs[start..endIdx)`. -/
def subSlice {α : Type} (xs : List α) (start endIdx : ℕ) : List α :=
  (xs.drop start).take (endIdx - start)

section AlgebraicModel

variable (p : ℕ)

/-- The correctness-checking mode a buffer is read with.  The source uses
`CheckForCorrectness::No` and `CheckForCorrectness::Both`. -/
inductive CheckForCorrectness
  | no
  | both
deriving DecidableEq, Repr

/-- From `keypair.rs` (usage in `raw_accumulator.rs`): the private key is
the three fresh scalars τ, α, β. -/
structure PrivateKey where
  tau : ZMod p
  alpha : ZMod p
  beta : ZMod p

/-- From `keypair.rs` (usage in `raw_accumulator.rs`): the public key
holds a `(s, s·x)` G1 pair for each secret `x ∈ {τ, α, β}` plus a G2
element per secret.  Points are modelled by their exponents. -/
structure PublicKey where
  tau_g1 : ZMod p × ZMod p
  alpha_g1 : ZMod p × ZMod p
  beta_g1 : ZMod p × ZMod p
  tau_g2 : ZMod p
  alpha_g2 : ZMod p
  beta_g2 : ZMod p

/-- The five parallel element arrays of the accumulator (a chunk of them,
or the full arrays in full mode), each point modelled by its exponent. -/
structure Accumulator where
  tauG1 : List (ZMod p)
  tauG2 : List (ZMod p)
  alphaG1 : List (ZMod p)
  betaG1 : List (ZMod p)
  betaG2 : ZMod p

/-- Modelled from the spec: reading a single element with
`CheckForCorrectness::Both` rejects the point at infinity ("check that
none is zero"); on-curve checks are vacuous in the exponent model. -/
def read_element (x : ZMod p) (chk : CheckForCorrectness) : Except VError (ZMod p) :=
  match chk with
  | .no => Except.ok x
  | .both => if x = 0 then Except.error VError.pointAtInfinity else Except.ok x

/-- Modelled from the spec: batch read with optional zero-point rejection. -/
def read_batch (xs : List (ZMod p)) (chk : CheckForCorrectness) :
    Except VError (List (ZMod p)) :=
  match chk with
  | .no => Except.ok xs
  | .both =>
    if ∃ x ∈ xs, x = 0 then Except.error VError.pointAtInfinity else Except.ok xs

/-- From `read_initial_elements`: read the first two elements of an array,
failing with `InvalidLength` when fewer are available. -/
def read_initial_elements (xs : List (ZMod p)) (chk : CheckForCorrectness) :
    Except VError (ZMod p × ZMod p) :=
  match read_batch p (xs.take 2) chk with
  | Except.error e => Except.error e
  | Except.ok ys =>
    match ys with
    | [a, b] => Except.ok (a, b)
    | _ => Except.error VError.invalidLength

/-- Modelled from the spec: `check_same_ratio((A, B), (X, Y))` of
snark-utils checks the pairing equation `e(A, Y) = e(B, X)`; in the
exponent model the pairing of exponents is their product. -/
def check_same_ratio (ab : ZMod p × ZMod p) (xy : ZMod p × ZMod p) (ctx : RatioContext) :
    Except VError Unit :=
  if ab.1 * xy.2 = ab.2 * xy.1 then Except.ok ()
  else Except.error (VError.invalidRatio ctx)

/-- From `check_elements_are_non_zero_and_in_prime_order_subgroup`: the
batch is read with `CheckForCorrectness::Both` into a zero-initialised
vector of `batch_size` elements (`pad` trailing zeros remain), then every
element of that vector is multiplied by the group order (`p`) and compared
with the identity. -/
def check_elements_are_non_zero_and_in_prime_order_subgroup
    (xs : List (ZMod p)) (pad : ℕ) : Except VError Unit :=
  match read_batch p xs CheckForCorrectness.both with
  | Except.error e => Except.error e
  | Except.ok els =>
    if ∀ x ∈ els ++ List.replicate pad (0 : ZMod p), (p : ZMod p) * x = 0
    then Except.ok ()
    else Except.error VError.incorrectSubgroup

/-- Modelled from the spec: snark-utils' `generate_powers_of_tau(τ, start,
end)` returns `[τ^start, …, τ^(end-1)]`. -/
def generate_powers_of_tau (tau : ZMod p) (start endIdx : ℕ) : List (ZMod p) :=
  (List.range' start (endIdx - start)).map fun i => tau ^ i

/-- Modelled from the spec: batch exponentiation raises each point to the
corresponding scalar, additionally scaled by the optional coefficient. -/
def batch_exp (els : List (ZMod p)) (powers : List (ZMod p)) (coeff : Option (ZMod p)) :
    List (ZMod p) :=
  List.zipWith
    (fun e pw =>
      match coeff with
      | none => e * pw
      | some co => e * (pw * co))
    els powers

/-- From `apply_powers`: read `input[start..end)`, exponentiate by
`powers[..end-start]`, write the result over `output[start..end)`.  Read
failures `panic` in the source (`expect`), so the element-level model is
total. -/
def apply_powers (output input : List (ZMod p)) (start endIdx : ℕ)
    (powers : List (ZMod p)) (coeff : Option (ZMod p)) : List (ZMod p) :=
  writeAt output start
    (batch_exp p (subSlice input start endIdx) (powers.take (endIdx - start)) coeff)

/-- From `contribute`/`verify_pok_and_correctness`: translate a window of
global indices into chunk-local buffer indices. -/
def chunk_offsets (P : ChunkedParams) (start endIdx : ℕ) : ℕ × ℕ :=
  match P.contribution_mode with
  | .chunked =>
    (start - P.chunk_index * P.chunk_size, endIdx - P.chunk_index * P.chunk_size)
  | .full => (start, endIdx)

/-- From `contribute`: the per-window transformation of the output arrays
(τG1 always; τG2/αG1/βG1 only when `start < powers_length`, with the end
clamped to `powers_length`). -/
def contribute_step (key : PrivateKey p) (P : ChunkedParams) (inp : Accumulator p)
    (acc : Accumulator p) (start endIdx : ℕ) : Accumulator p :=
  let off := chunk_offsets P start endIdx
  let powers := generate_powers_of_tau p key.tau start endIdx
  let acc1 := { acc with tauG1 := apply_powers p acc.tauG1 inp.tauG1 off.1 off.2 powers none }
  if start < P.powers_length then
    let e2 := if P.powers_length < start + P.batch_size then P.powers_length else endIdx
    let off2 := chunk_offsets P start e2
    { acc1 with
      tauG2 := apply_powers p acc1.tauG2 inp.tauG2 off2.1 off2.2 powers none
      alphaG1 := apply_powers p acc1.alphaG1 inp.alphaG1 off2.1 off2.2 powers (some key.alpha)
      betaG1 := apply_powers p acc1.betaG1 inp.betaG1 off2.1 off2.2 powers (some key.beta) }
  else acc1

/-- From `contribute`: read the βG2 singleton (the only fallible read, via
`?`), multiply it by β and write it out, then transform every window given
by `iter_chunk`.  The caller supplies the pre-existing contents of the
output buffer. -/
def contribute (key : PrivateKey p) (P : ChunkedParams) (inp : Accumulator p)
    (chk : CheckForCorrectness) (outInit : Accumulator p) :
    Except VError (Accumulator p) :=
  match read_element p inp.betaG2 chk with
  | Except.error e => Except.error e
  | Except.ok beta_g2_el =>
    iter_chunk_fold P (fun acc s e => contribute_step p key P inp acc s e)
      { outInit with betaG2 := beta_g2_el * key.beta }

/-- From `compute_g2_s_key`: recompute the three hash-to-G2 points from
the digest and the G1 halves of the public key.  The hash-to-G2 function
itself is external (`compute_g2_s`), abstracted as `cg2s`. -/
def compute_g2_s_key (cg2s : List ℕ → ZMod p × ZMod p → ℕ → ZMod p)
    (key : PublicKey p) (digest : List ℕ) : ZMod p × ZMod p × ZMod p :=
  (cg2s digest key.tau_g1 0, cg2s digest key.alpha_g1 1, cg2s digest key.beta_g1 2)

/-- Modelled from the spec: the keypair derivation of `keypair.rs` — each
G1 pair is `(s, s·x)` for a fresh `s`, and each G2 component is
`x · hash-to-G2(digest ‖ s ‖ s·x ‖ index)`. -/
def public_key_of (cg2s : List ℕ → ZMod p × ZMod p → ℕ → ZMod p) (digest : List ℕ)
    (key : PrivateKey p) (s1 s2 s3 : ZMod p) : PublicKey p :=
  let t : ZMod p × ZMod p := (s1, s1 * key.tau)
  let a : ZMod p × ZMod p := (s2, s2 * key.alpha)
  let b : ZMod p × ZMod p := (s3, s3 * key.beta)
  ⟨t, a, b, key.tau * cg2s digest t 0, key.alpha * cg2s digest a 1,
    key.beta * cg2s digest b 2⟩

/-- From `verify_pok_and_correctness`: the full verification.  The header
block (proof-of-knowledge ratios, generator checks, before/after ratio
checks, βG2 singleton check) runs when the mode is `Full` or the chunk
index is `0`; then every window is checked for zero points and subgroup
membership (the per-window checks `panic` on failure in the source; the
model reports them as errors). -/
def verify_pok_and_correctness (cg2s : List ℕ → ZMod p × ZMod p → ℕ → ZMod p)
    (inp : Accumulator p) (chkIn : CheckForCorrectness)
    (out : Accumulator p) (chkOut : CheckForCorrectness)
    (key : PublicKey p) (digest : List ℕ) (P : ChunkedParams) : Except VError Unit :=
  (if P.contribution_mode = ContributionMode.full ∨ P.chunk_index = 0 then do
    let g2s := compute_g2_s_key p cg2s key digest
    check_same_ratio p key.tau_g1 (g2s.1, key.tau_g2) RatioContext.pokTau
    check_same_ratio p key.alpha_g1 (g2s.2.1, key.alpha_g2) RatioContext.pokAlpha
    check_same_ratio p key.beta_g1 (g2s.2.2, key.beta_g2) RatioContext.pokBeta
    let before_g1 ← read_initial_elements p inp.tauG1 chkIn
    let after_g1 ← read_initial_elements p out.tauG1 chkOut
    (if after_g1.1 ≠ 1 then Except.error (VError.invalidGenerator ElementKind.tauG1)
      else Except.ok ())
    let before_g2 ← read_initial_elements p inp.tauG2 chkIn
    let after_g2 ← read_initial_elements p out.tauG2 chkOut
    (if after_g2.1 ≠ 1 then Except.error (VError.invalidGenerator ElementKind.tauG2)
      else Except.ok ())
    check_same_ratio p (before_g1.2, after_g1.2) (g2s.1, key.tau_g2)
      RatioContext.beforeAfterTauG1
    check_same_ratio p key.tau_g1 (before_g2.2, after_g2.2)
      RatioContext.beforeAfterTauG2
    let before_alpha ← read_initial_elements p inp.alphaG1 chkIn
    let after_alpha ← read_initial_elements p out.alphaG1 chkOut
    check_same_ratio p (before_alpha.1, after_alpha.1) (g2s.2.1, key.alpha_g2)
      RatioContext.beforeAfterAlphaBeta0
    let before_beta ← read_initial_elements p inp.betaG1 chkIn
    let after_beta ← read_initial_elements p out.betaG1 chkOut
    check_same_ratio p (before_beta.1, after_beta.1) (g2s.2.2, key.beta_g2)
      RatioContext.beforeAfterAlphaBeta0
    let before_beta_g2 ← read_element p inp.betaG2 chkIn
    let after_beta_g2 ← read_element p out.betaG2 chkOut
    check_same_ratio p key.beta_g1 (before_beta_g2, after_beta_g2)
      RatioContext.beforeAfterBetaG2
  else Except.ok ()) >>= fun _ =>
  iter_chunk P fun start endIdx =>
    let off := chunk_offsets P start endIdx
    match check_elements_are_non_zero_and_in_prime_order_subgroup p
      (subSlice out.tauG1 off.1 off.2) (P.batch_size - (off.2 - off.1)) with
    | Except.error e => Except.error e
    | Except.ok _ =>
      if start < P.powers_length then
        let e2 := if P.powers_length < start + P.batch_size then P.powers_length else endIdx
        let off2 := chunk_offsets P start e2
        match check_elements_are_non_zero_and_in_prime_order_subgroup p
          (subSlice out.tauG2 off2.1 off2.2) (P.batch_size - (off2.2 - off2.1)) with
        | Except.error e => Except.error e
        | Except.ok _ =>
          match check_elements_are_non_zero_and_in_prime_order_subgroup p
            (subSlice out.alphaG1 off2.1 off2.2) (P.batch_size - (off2.2 - off2.1)) with
          | Except.error e => Except.error e
          | Except.ok _ =>
            check_elements_are_non_zero_and_in_prime_order_subgroup p
              (subSlice out.betaG1 off2.1 off2.2) (P.batch_size - (off2.2 - off2.1))
      else Except.ok ()

/-- The per-window zero/subgroup checks of `verify_pok_and_correctness`,
stated on their own: what the claim says is the only work performed for a
chunked verification with positive chunk index. -/
def window_subgroup_checks (out : Accumulator p) (P : ChunkedParams) :
    Except VError Unit :=
  iter_chunk P fun start endIdx =>
    let off := chunk_offsets P start endIdx
    match check_elements_are_non_zero_and_in_prime_order_subgroup p
      (subSlice out.tauG1 off.1 off.2) (P.batch_size - (off.2 - off.1)) with
    | Except.error e => Except.error e
    | Except.ok _ =>
      if start < P.powers_length then
        let e2 := if P.powers_length < start + P.batch_size then P.powers_length else endIdx
        let off2 := chunk_offsets P start e2
        match check_elements_are_non_zero_and_in_prime_order_subgroup p
          (subSlice out.tauG2 off2.1 off2.2) (P.batch_size - (off2.2 - off2.1)) with
        | Except.error e => Except.error e
        | Except.ok _ =>
          match check_elements_are_non_zero_and_in_prime_order_subgroup p
            (subSlice out.alphaG1 off2.1 off2.2) (P.batch_size - (off2.2 - off2.1)) with
          | Except.error e => Except.error e
          | Except.ok _ =>
            check_elements_are_non_zero_and_in_prime_order_subgroup p
              (subSlice out.betaG1 off2.1 off2.2) (P.batch_size - (off2.2 - off2.1))
      else Except.ok ()

/-- The header block of `verify_pok_and_correctness` stated on its own:
proof-of-knowledge pairing checks, generator checks on the initial τG1/τG2
elements, before/after ratio checks for τ, α, β and the βG2 singleton. -/
def header_pok_checks (cg2s : List ℕ → ZMod p × ZMod p → ℕ → ZMod p)
    (inp : Accumulator p) (chkIn : CheckForCorrectness)
    (out : Accumulator p) (chkOut : CheckForCorrectness)
    (key : PublicKey p) (digest : List ℕ) : Except VError Unit := do
  let g2s := compute_g2_s_key p cg2s key digest
  check_same_ratio p key.tau_g1 (g2s.1, key.tau_g2) RatioContext.pokTau
  check_same_ratio p key.alpha_g1 (g2s.2.1, key.alpha_g2) RatioContext.pokAlpha
  check_same_ratio p key.beta_g1 (g2s.2.2, key.beta_g2) RatioContext.pokBeta
  let before_g1 ← read_initial_elements p inp.tauG1 chkIn
  let after_g1 ← read_initial_elements p out.tauG1 chkOut
  (if after_g1.1 ≠ 1 then Except.error (VError.invalidGenerator ElementKind.tauG1)
    else Except.ok ())
  let before_g2 ← read_initial_elements p inp.tauG2 chkIn
  let after_g2 ← read_initial_elements p out.tauG2 chkOut
  (if after_g2.1 ≠ 1 then Except.error (VError.invalidGenerator ElementKind.tauG2)
    else Except.ok ())
  check_same_ratio p (before_g1.2, after_g1.2) (g2s.1, key.tau_g2)
    RatioContext.beforeAfterTauG1
  check_same_ratio p key.tau_g1 (before_g2.2, after_g2.2)
    RatioContext.beforeAfterTauG2
  let before_alpha ← read_initial_elements p inp.alphaG1 chkIn
  let after_alpha ← read_initial_elements p out.alphaG1 chkOut
  check_same_ratio p (before_alpha.1, after_alpha.1) (g2s.2.1, key.alpha_g2)
    RatioContext.beforeAfterAlphaBeta0
  let before_beta ← read_initial_elements p inp.betaG1 chkIn
  let after_beta ← read_initial_elements p out.betaG1 chkOut
  check_same_ratio p (before_beta.1, after_beta.1) (g2s.2.2, key.beta_g2)
    RatioContext.beforeAfterAlphaBeta0
  let before_beta_g2 ← read_element p inp.betaG2 chkIn
  let after_beta_g2 ← read_element p out.betaG2 chkOut
  check_same_ratio p key.beta_g1 (before_beta_g2, after_beta_g2)
    RatioContext.beforeAfterBetaG2

/-- What `contribute` computes in full mode, element by element: each
array entry is multiplied by the matching power of τ (times α or β for the
αG1/βG1 arrays), and the βG2 singleton by β. -/
def contribute_expected (key : PrivateKey p) (inp : Accumulator p) : Accumulator p :=
  ⟨inp.tauG1.mapIdx fun i x => x * key.tau ^ i,
    inp.tauG2.mapIdx fun i x => x * key.tau ^ i,
    inp.alphaG1.mapIdx fun i x => x * (key.tau ^ i * key.alpha),
    inp.betaG1.mapIdx fun i x => x * (key.tau ^ i * key.beta),
    inp.betaG2 * key.beta⟩

/-- From `init`: the freshly initialised full-mode accumulator, every slot
holding the group generator (exponent `1`). -/
def init_accumulator (P : ChunkedParams) : Accumulator p :=
  ⟨List.replicate P.powers_g1_length 1, List.replicate P.powers_length 1,
    List.replicate P.powers_length 1, List.replicate P.powers_length 1, 1⟩

/-- The accumulator arrays have the lengths announced by the parameters. -/
def accumulator_sizes_ok (P : ChunkedParams) (A : Accumulator p) : Prop :=
  A.tauG1.length = P.powers_g1_length ∧ A.tauG2.length = P.powers_length ∧
  A.alphaG1.length = P.powers_length ∧ A.betaG1.length = P.powers_length

/-- All stored points are away from the identity. -/
def accumulator_nonzero (A : Accumulator p) : Prop :=
  (∀ x ∈ A.tauG1, x ≠ 0) ∧ (∀ x ∈ A.tauG2, x ≠ 0) ∧ (∀ x ∈ A.alphaG1, x ≠ 0) ∧
  (∀ x ∈ A.betaG1, x ≠ 0) ∧ A.betaG2 ≠ 0

/-- Proof-side restatement of the τG1 part of `contribute_step`. -/
def tau_g1_step (key : PrivateKey p) (P : ChunkedParams) (src : List (ZMod p))
    (buf : List (ZMod p)) (w : ℕ × ℕ) : List (ZMod p) :=
  apply_powers p buf src (chunk_offsets P w.1 w.2).1 (chunk_offsets P w.1 w.2).2
    (generate_powers_of_tau p key.tau w.1 w.2) none

/-- Proof-side restatement of the τG2/αG1/βG1 part of `contribute_step`. -/
def other_array_step (key : PrivateKey p) (P : ChunkedParams) (src : List (ZMod p))
    (coeff : Option (ZMod p)) (buf : List (ZMod p)) (w : ℕ × ℕ) : List (ZMod p) :=
  if w.1 < P.powers_length then
    let e2 := if P.powers_length < w.1 + P.batch_size then P.powers_length else w.2
    apply_powers p buf src (chunk_offsets P w.1 e2).1 (chunk_offsets P w.1 e2).2
      (generate_powers_of_tau p key.tau w.1 w.2) coeff
  else buf

end AlgebraicModel

/-- Modelled from the spec: the element counts of a chunk under the
extended chunked parameters — stride `chunk_size`, ends clamped to the
array lengths (spec 4.A: `start = k·c`, `end = min((k+1)·c, len)`). -/
def chunk_element_sizes_chunked (c k G L : ℕ) : ℕ × ℕ :=
  (min ((k + 1) * c) G - min (k * c) G, min ((k + 1) * c) L - min (k * c) L)

/-- Byte-level parameters of `combine`: element byte sizes of the input
chunks (compressed responses) and of the full output buffer, the array
lengths and the chunk size. -/
structure CombineParams where
  g1_in : ℕ
  g2_in : ℕ
  g1_out : ℕ
  g2_out : ℕ
  powers_length : ℕ
  powers_g1_length : ℕ
  chunk_size : ℕ
deriving DecidableEq, Repr

/-- From `split_at_chunk_mut`: base offset of the τG1 region of the full
output buffer (after the 64-byte hash prefix). -/
def tau_g1_base (pp : CombineParams) : ℕ := 64

/-- From `split_at_chunk_mut`: base offset of the τG2 region. -/
def tau_g2_base (pp : CombineParams) : ℕ :=
  tau_g1_base pp + pp.powers_g1_length * pp.g1_out

/-- From `split_at_chunk_mut`: base offset of the αG1 region. -/
def alpha_g1_base (pp : CombineParams) : ℕ :=
  tau_g2_base pp + pp.powers_length * pp.g2_out

/-- From `split_at_chunk_mut`: base offset of the βG1 region. -/
def beta_g1_base (pp : CombineParams) : ℕ :=
  alpha_g1_base pp + pp.powers_length * pp.g1_out

/-- From `split_at_chunk_mut`: offset of the βG2 singleton. -/
def beta_g2_base (pp : CombineParams) : ℕ :=
  beta_g1_base pp + pp.powers_length * pp.g1_out

/-- From `combine` in `raw_accumulator.rs`: processing of one chunk.  The
input buffer is split in chunk view (`split`), the output in full view at
the chunk's offsets (`split_at_chunk_mut`); each region's elements are
read and re-serialized (`read_batch`/`write_batch`, abstracted as the
re-encoding functions `recG1`/`recG2`) and written over the chunk's byte
sub-ranges; τG2/αG1/βG1 only when `start < powers_length`, and the βG2
singleton only for chunk 0. -/
def combine_step (pp : CombineParams) (recG1 recG2 : List ℕ → List ℕ) (k : ℕ)
    (inp : List ℕ) (buf : List ℕ) : List ℕ :=
  let els := chunk_element_sizes_chunked pp.chunk_size k pp.powers_g1_length pp.powers_length
  let iT1 := 64
  let iT2 := iT1 + els.1 * pp.g1_in
  let iA := iT2 + els.2 * pp.g2_in
  let iB := iA + els.2 * pp.g1_in
  let iBg2 := iB + els.2 * pp.g1_in
  let buf1 := writeAt buf (tau_g1_base pp + k * pp.chunk_size * pp.g1_out)
    (recG1 (subSlice inp iT1 iT2))
  let buf2 :=
    if k * pp.chunk_size < pp.powers_length then
      writeAt
        (writeAt
          (writeAt buf1 (tau_g2_base pp + k * pp.chunk_size * pp.g2_out)
            (recG2 (subSlice inp iT2 iA)))
          (alpha_g1_base pp + k * pp.chunk_size * pp.g1_out)
          (recG1 (subSlice inp iA iB)))
        (beta_g1_base pp + k * pp.chunk_size * pp.g1_out)
        (recG1 (subSlice inp iB iBg2))
    else buf1
  if k = 0 then
    writeAt buf2 (beta_g2_base pp) (recG2 (subSlice inp iBg2 (iBg2 + pp.g2_in)))
  else buf2

/-- From `combine`: fold over the enumerated chunk inputs. -/
def combine_aux (pp : CombineParams) (recG1 recG2 : List ℕ → List ℕ) :
    ℕ → List (List ℕ) → List ℕ → List ℕ
  | _, [], buf => buf
  | k, inp :: rest, buf =>
    combine_aux pp recG1 recG2 (k + 1) rest (combine_step pp recG1 recG2 k inp buf)

/-- From `combine`: process every chunk input in order, starting at chunk
index 0. -/
def combine (pp : CombineParams) (recG1 recG2 : List ℕ → List ℕ)
    (inputs : List (List ℕ)) (buf : List ℕ) : List ℕ :=
  combine_aux pp recG1 recG2 0 inputs buf

/-- The output byte sub-ranges belonging to chunk `k`: its slice of each
of the four arrays (τG2/αG1/βG1 only when the chunk starts below
`powers_length`), plus the βG2 singleton for chunk 0 only. -/
def in_chunk_write_range (pp : CombineParams) (k j : ℕ) : Prop :=
  let els := chunk_element_sizes_chunked pp.chunk_size k pp.powers_g1_length pp.powers_length
  (tau_g1_base pp + k * pp.chunk_size * pp.g1_out ≤ j ∧
    j < tau_g1_base pp + k * pp.chunk_size * pp.g1_out + els.1 * pp.g1_out)
  ∨ (k * pp.chunk_size < pp.powers_length ∧
      ((tau_g2_base pp + k * pp.chunk_size * pp.g2_out ≤ j ∧
        j < tau_g2_base pp + k * pp.chunk_size * pp.g2_out + els.2 * pp.g2_out)
      ∨ (alpha_g1_base pp + k * pp.chunk_size * pp.g1_out ≤ j ∧
        j < alpha_g1_base pp + k * pp.chunk_size * pp.g1_out + els.2 * pp.g1_out)
      ∨ (beta_g1_base pp + k * pp.chunk_size * pp.g1_out ≤ j ∧
        j < beta_g1_base pp + k * pp.chunk_size * pp.g1_out + els.2 * pp.g1_out)))
  ∨ (k = 0 ∧ beta_g2_base pp ≤ j ∧ j < beta_g2_base pp + pp.g2_out)

theorem chunk_g1_count_le (b k G L : ℕ) (hkb : (k + 1) * b < U64) (hG : G < U64)
    (hle : k * b ≤ G) :
    (chunk_element_sizes b k G L).1 = min ((k + 1) * b) G - k * b := by
  have hkb' : k * b < U64 :=
    lt_of_le_of_lt (Nat.mul_le_mul_right b (Nat.le_succ k)) hkb
  simp only [chunk_element_sizes, wsub]
  split_ifs with h
  · have hmod : k * b % U64 = k * b := Nat.mod_eq_of_lt hkb'
    rw [hmod]
    have h1 : G + (U64 - k * b) = U64 + (G - k * b) := by omega
    rw [h1, Nat.add_mod_left]
    have h2 : G - k * b < U64 := by omega
    rw [Nat.mod_eq_of_lt h2]
    omega
  · omega

theorem chunk_g1_count_gt (b k G L : ℕ) (hkb : (k + 1) * b < U64)
    (hlt : G < k * b) :
    (chunk_element_sizes b k G L).1 = U64 - (k * b - G) := by
  have hkb' : k * b < U64 :=
    lt_of_le_of_lt (Nat.mul_le_mul_right b (Nat.le_succ k)) hkb
  simp only [chunk_element_sizes, wsub]
  have hend : G < (k + 1) * b := by
    calc G < k * b := hlt
      _ ≤ (k + 1) * b := Nat.mul_le_mul_right b (Nat.le_succ k)
  rw [if_pos hend]
  have hmod : k * b % U64 = k * b := Nat.mod_eq_of_lt hkb'
  rw [hmod]
  have h1 : G + (U64 - k * b) = U64 - (k * b - G) := by omega
  rw [h1]
  exact Nat.mod_eq_of_lt (by omega)

/-- Claim C3 as stated is false: for a chunk lying strictly past the end of
the tauG1 array (`start = k*b > G`) the code's `usize` subtraction
`powers_g1_length - start` wraps instead of clamping to `0`.  Concretely,
with `b = 4`, `k = 4`, `G = 15`, `L = 8` the start index is `16 > 15` and
the returned G1 element count is `2^64 - 1`, not `0`. -/
theorem c3_counterexample : ¬ (chunk_element_sizes 4 4 15 8).1 = 0 := by decide

/-- Claim C3, amended: provided the start index `k*b` does not exceed
`powers_g1_length`, the G1 element count equals `min((k+1)*b, G) - k*b`;
when `k*b > G` the subtraction wraps to `2^64 - (k*b - G)` (the code never
clamps to `0`, and it does return a pair rather than signalling an error). -/
theorem c3_amended (b k G L : ℕ) (hkb : (k + 1) * b < U64) (hG : G < U64) :
    (k * b ≤ G → (chunk_element_sizes b k G L).1 = min ((k + 1) * b) G - k * b)
    ∧ (G < k * b → (chunk_element_sizes b k G L).1 = U64 - (k * b - G)) :=
  ⟨chunk_g1_count_le b k G L hkb hG, chunk_g1_count_gt b k G L hkb⟩

/-- Witness for the amended claim C3 at `b = 4`, `k = 2`, `G = 15`, `L = 8`. -/
theorem c3_amended_witness :
    ((2 + 1) * 4 < U64 ∧ 15 < U64 ∧ 2 * 4 ≤ 15) ∧
      (chunk_element_sizes 4 2 15 8).1 = min ((2 + 1) * 4) 15 - 2 * 4 :=
  ⟨by decide, (c3_amended 4 2 15 8 (by decide) (by decide)).1 (by decide)⟩

/-- Claim C7 as stated is false: with BLS12-377 sizes and `size = 3`
(`L = 8`, `G = 15`), the uncompressed accumulator size computed by the
ceremony parameters for the chunk covering all powers is not `4816`. -/
theorem c7_counterexample :
    ¬ (new_with_curve 0 bls12_377_curve 3 256).accumulator_size = 4816 := by decide

/-- Claim C7, amended: the accumulator size for BLS12-377 at `size = 3`
with the chunk covering all powers equals `5344` bytes: beyond the hash
and the five element regions counted by the spec, the code's formula adds
a `2·|G1| + 2·|G2|` "tau single" region (`5344 = 64 + 15·96 + 8·(192+2·96)
+ 192 + 2·96 + 2·192`).  `get_length` for an uncompressed file returns the
same number. -/
theorem c7_amended :
    (new_with_curve 0 bls12_377_curve 3 256).accumulator_size = 5344
    ∧ get_length (new_with_curve 0 bls12_377_curve 3 256) UseCompression.no = 5344 := by
  decide

/-- Claim C8: for a chunk whose start `k*b` lies in `[L, G)`, the
`other` element count is `0` — so the τG2/αG1/βG1 sub-buffers produced by
`split` are empty — while the τG1 sub-buffer holds
`min((k+1)*b, G) - k*b > 0` elements. -/
theorem c8 (b k G L g1s g2s : ℕ) (hb : 1 ≤ b) (hL : L ≤ k * b) (hs : k * b < G)
    (hkb : (k + 1) * b < U64) (hG : G < U64) :
    (chunk_element_sizes b k G L).2 = 0
    ∧ (chunk_element_sizes b k G L).1 = min ((k + 1) * b) G - k * b
    ∧ 0 < (chunk_element_sizes b k G L).1
    ∧ split_chunk_lengths g1s g2s b k G L =
        (g1s * (min ((k + 1) * b) G - k * b), 0, 0, 0, g2s) := by
  have hkb' : k * b < U64 := lt_of_le_of_lt (Nat.mul_le_mul_right b (Nat.le_succ k)) hkb
  have hendL : L < (k + 1) * b := by
    have : k * b + b ≤ (k + 1) * b := by ring_nf; omega
    omega
  have hother : (chunk_element_sizes b k G L).2 = 0 := by
    simp only [chunk_element_sizes]
    rw [if_pos ⟨hendL, hL⟩]
  have hg1 : (chunk_element_sizes b k G L).1 = min ((k + 1) * b) G - k * b :=
    chunk_g1_count_le b k G L hkb hG (le_of_lt hs)
  refine ⟨hother, hg1, ?_, ?_⟩
  · rw [hg1]
    have : k * b + 1 ≤ min ((k + 1) * b) G := by
      have : k * b + b ≤ (k + 1) * b := by ring_nf; omega
      omega
    omega
  · simp only [split_chunk_lengths, hother, hg1, Nat.mul_zero]

/-- Witness for claim C8 at `b = 4`, `k = 2`, `G = 15`, `L = 8`,
BLS12-377 uncompressed element sizes. -/
theorem c8_witness :
    (1 ≤ 4 ∧ 8 ≤ 2 * 4 ∧ 2 * 4 < 15 ∧ (2 + 1) * 4 < U64 ∧ 15 < U64) ∧
      ((chunk_element_sizes 4 2 15 8).2 = 0
        ∧ (chunk_element_sizes 4 2 15 8).1 = min ((2 + 1) * 4) 15 - 2 * 4
        ∧ 0 < (chunk_element_sizes 4 2 15 8).1
        ∧ split_chunk_lengths 96 192 4 2 15 8 =
            (96 * (min ((2 + 1) * 4) 15 - 2 * 4), 0, 0, 0, 192)) :=
  ⟨by decide, c8 4 2 15 8 96 192 (by decide) (by decide) (by decide) (by decide) (by decide)⟩

/-- Claim C9: the phase-2 domain size computed by `new_challenge` is the
next power of two of `max(num_constraints, num_witness_variables +
num_instance_variables)`: it is a power of two, at least that maximum, and
no smaller power of two dominates the maximum. -/
theorem c9 (n w i : ℕ) :
    (∃ k, new_challenge_phase2_size n w i = 2 ^ k)
    ∧ max n (w + i) ≤ new_challenge_phase2_size n w i
    ∧ ∀ j, max n (w + i) ≤ 2 ^ j → new_challenge_phase2_size n w i ≤ 2 ^ j := by
  refine ⟨⟨Nat.clog 2 (max n (w + i)), rfl⟩, ?_, ?_⟩
  · exact Nat.le_pow_clog (by norm_num) _
  · intro j hj
    have := (Nat.le_pow_iff_clog_le (by norm_num : 1 < 2)).mp hj
    exact Nat.pow_le_pow_right (by norm_num) this

/-- Claim C10: `specialize_to_chunk` changes only the `chunk_index` field;
the derived size fields keep the values computed for the original chunk
index, the response-length check of the combine entry point therefore uses
sizes independent of the chunk index it specializes to, and those stale
sizes can differ from the sizes of freshly constructed parameters for the
same chunk. -/
theorem c10 :
    (∀ p k, (specialize_to_chunk p k).chunk_index = k
      ∧ (specialize_to_chunk p k).curve = p.curve
      ∧ (specialize_to_chunk p k).powers_g1_length = p.powers_g1_length
      ∧ (specialize_to_chunk p k).powers_length = p.powers_length
      ∧ (specialize_to_chunk p k).size = p.size
      ∧ (specialize_to_chunk p k).batch_size = p.batch_size
      ∧ (specialize_to_chunk p k).public_key_size = p.public_key_size
      ∧ (specialize_to_chunk p k).accumulator_size = p.accumulator_size
      ∧ (specialize_to_chunk p k).contribution_size = p.contribution_size
      ∧ (specialize_to_chunk p k).hash_size = p.hash_size)
    ∧ (∀ p k c, expected_response_length (specialize_to_chunk p k) c =
        expected_response_length p c)
    ∧ (specialize_to_chunk (CeremonyParams.new 0 3 4) 2).accumulator_size ≠
        (CeremonyParams.new 2 3 4).accumulator_size := by
  refine ⟨fun p k => ?_, fun p k c => ?_, by decide⟩
  · exact ⟨rfl, rfl, rfl, rfl, rfl, rfl, rfl, rfl, rfl, rfl⟩
  · cases c <;> rfl

theorem take_range' (c s n : ℕ) : (List.range' s n).take c = List.range' s (min c n) := by
  induction n generalizing c s with
  | zero => simp
  | succ n ih =>
    cases c with
    | zero => simp
    | succ c =>
      rw [List.range'_succ, List.take_succ_cons, ih]
      have h : min (c + 1) (n + 1) = min c n + 1 := by omega
      rw [h, List.range'_succ]

theorem drop_range' (c s n : ℕ) : (List.range' s n).drop c = List.range' (s + c) (n - c) := by
  induction n generalizing c s with
  | zero => simp
  | succ n ih =>
    cases c with
    | zero => simp
    | succ c =>
      rw [List.range'_succ, List.drop_succ_cons, ih]
      have h : s + 1 + c = s + (c + 1) := by omega
      have h2 : n - c = n + 1 - (c + 1) := by omega
      rw [h, h2]

theorem groupsAux_cons (c fuel : ℕ) (x : ℕ) (xs : List ℕ) :
    groupsAux c (fuel + 1) (x :: xs) =
      (x :: xs).take c :: groupsAux c fuel ((x :: xs).drop c) := rfl

theorem groupsAux_nil (c fuel : ℕ) : groupsAux c (fuel + 1) [] = [] := rfl

theorem windowsFrom_succ (c fuel start mx : ℕ) :
    windowsFrom c (fuel + 1) start mx =
      if start < mx then
        (start, windowEnd mx (min (start + c) mx - 1)) :: windowsFrom c fuel (start + c) mx
      else [] := rfl

theorem groupsAux_range (c : ℕ) (hc : 0 < c) :
    ∀ fuel start mx, mx - start ≤ fuel →
      groupsAux c fuel (List.range' start (mx - start)) =
        (windowsFrom c fuel start mx).map fun w => List.range' w.1 (min c (mx - w.1)) := by
  intro fuel
  induction fuel with
  | zero =>
    intro start mx h
    have h0 : mx - start = 0 := by omega
    rw [h0]
    rfl
  | succ fuel ih =>
    intro start mx h
    by_cases hs : start < mx
    · have hn : mx - start = (mx - (start + 1)) + 1 := by omega
      rw [hn, List.range'_succ, groupsAux_cons, ← List.range'_succ, ← hn,
        take_range', drop_range']
      have hd : mx - start - c = mx - (start + c) := by omega
      rw [hd, ih (start + c) mx (by omega), windowsFrom_succ, if_pos hs, List.map_cons]
    · have h0 : mx - start = 0 := by omega
      rw [h0, windowsFrom_succ, if_neg hs]
      rfl

theorem windowsFrom_start_lt (c : ℕ) :
    ∀ fuel start mx, ∀ w ∈ windowsFrom c fuel start mx, start ≤ w.1 ∧ w.1 < mx := by
  intro fuel
  induction fuel with
  | zero => intro start mx w hw; simp [windowsFrom] at hw
  | succ fuel ih =>
    intro start mx w hw
    rw [windowsFrom_succ] at hw
    by_cases hs : start < mx
    · rw [if_pos hs] at hw
      rcases List.mem_cons.mp hw with h | h
      · subst h; exact ⟨le_refl _, hs⟩
      · have := ih (start + c) mx w h
        exact ⟨by omega, this.2⟩
    · rw [if_neg hs] at hw; simp at hw

theorem windowsFrom_shape (c : ℕ) :
    ∀ fuel start mx, ∀ w ∈ windowsFrom c fuel start mx,
      w.2 = windowEnd mx (min (w.1 + c) mx - 1) := by
  intro fuel
  induction fuel with
  | zero => intro start mx w hw; simp [windowsFrom] at hw
  | succ fuel ih =>
    intro start mx w hw
    rw [windowsFrom_succ] at hw
    by_cases hs : start < mx
    · rw [if_pos hs] at hw
      rcases List.mem_cons.mp hw with h | h
      · subst h; rfl
      · exact ih (start + c) mx w h
    · rw [if_neg hs] at hw; simp at hw

theorem windowsFrom_bounds (c : ℕ) (hc : 0 < c) :
    ∀ fuel start mx, ∀ w ∈ windowsFrom c fuel start mx,
      start ≤ w.1 ∧ w.1 < w.2 ∧ w.2 ≤ mx := by
  intro fuel start mx w hw
  obtain ⟨h1, h2⟩ := windowsFrom_start_lt c fuel start mx w hw
  have h3 := windowsFrom_shape c fuel start mx w hw
  refine ⟨h1, ?_, ?_⟩ <;> rw [h3] <;> unfold windowEnd <;> split_ifs <;> omega

theorem windowsFrom_cover (c : ℕ) (hc : 0 < c) :
    ∀ fuel start mx, mx - start ≤ fuel → ∀ i, start ≤ i → i < mx →
      ∃ w ∈ windowsFrom c fuel start mx, w.1 ≤ i ∧ i < w.2 := by
  intro fuel
  induction fuel with
  | zero => intro start mx h i h1 h2; omega
  | succ fuel ih =>
    intro start mx h i h1 h2
    have hs : start < mx := by omega
    rw [windowsFrom_succ, if_pos hs]
    by_cases hi : i < min (start + c) mx
    · refine ⟨(start, windowEnd mx (min (start + c) mx - 1)), List.mem_cons_self _ _, h1, ?_⟩
      unfold windowEnd
      split_ifs <;> omega
    · have hge : start + c ≤ i := by omega
      obtain ⟨w, hw, hwi⟩ := ih (start + c) mx (by omega) i hge h2
      exact ⟨w, List.mem_cons_of_mem _ hw, hwi⟩

theorem windowsFrom_chain (c : ℕ) (hc : 0 < c) :
    ∀ fuel start mx,
      List.Chain' (fun w w2 => w.2 = w2.1 + 1 ∧ w.1 < w2.1 ∧ w2.1 < w2.2)
        (windowsFrom c fuel start mx) := by
  intro fuel
  induction fuel with
  | zero => intro start mx; simp [windowsFrom]
  | succ fuel ih =>
    intro start mx
    rw [windowsFrom_succ]
    split_ifs with hs
    · rw [List.chain'_cons']
      refine ⟨?_, ih (start + c) mx⟩
      intro y hy
      cases fuel with
      | zero => simp [windowsFrom] at hy
      | succ fuel =>
        rw [windowsFrom_succ] at hy
        by_cases hs2 : start + c < mx
        · rw [if_pos hs2] at hy
          simp only [List.head?_cons, Option.mem_def, Option.some.injEq] at hy
          subst hy
          refine ⟨?_, by omega, ?_⟩ <;> unfold windowEnd <;> split_ifs <;> omega
        · rw [if_neg hs2] at hy; simp at hy
    · exact List.chain'_nil

theorem windowsFrom_adjacent (c : ℕ) (hc : 0 < c) :
    ∀ fuel start mx, mx - start ≤ fuel → ∀ i, start ≤ i → i + 1 < mx →
      ∃ w ∈ windowsFrom c fuel start mx, w.1 ≤ i ∧ i + 1 < w.2 := by
  intro fuel
  induction fuel with
  | zero => intro start mx h i h1 h2; omega
  | succ fuel ih =>
    intro start mx h i h1 h2
    have hs : start < mx := by omega
    rw [windowsFrom_succ, if_pos hs]
    by_cases hi : i < start + c
    · refine ⟨(start, windowEnd mx (min (start + c) mx - 1)), List.mem_cons_self _ _, h1, ?_⟩
      unfold windowEnd
      split_ifs <;> omega
    · obtain ⟨w, hw, hwi⟩ := ih (start + c) mx (by omega) i (by omega) h2
      exact ⟨w, List.mem_cons_of_mem _ hw, hwi⟩

theorem mapM_of_map {α β : Type} (toG : β → α) (f : α → Option β) :
    ∀ ws : List β, (∀ w ∈ ws, f (toG w) = some w) →
      (ws.map toG).mapM f = some ws := by
  intro ws
  induction ws with
  | nil => intro _; rfl
  | cons a l ih =>
    intro h
    rw [List.map_cons, List.mapM_cons, h a (List.mem_cons_self _ _),
      ih fun w hw => h w (List.mem_cons_of_mem _ hw)]
    rfl

theorem exceptForM_of_map {α β : Type} (toG : β → α) (F : α → Except VError Unit)
    (A : β → Except VError Unit) :
    ∀ ws : List β, (∀ w ∈ ws, F (toG w) = A w) →
      exceptForM F (ws.map toG) = exceptForM A ws := by
  intro ws
  induction ws with
  | nil => intro _; rfl
  | cons a l ih =>
    intro h
    rw [List.map_cons]
    show (match F (toG a) with
      | Except.error e => Except.error e
      | Except.ok _ => exceptForM F (l.map toG)) = _
    rw [h a (List.mem_cons_self _ _), ih fun w hw => h w (List.mem_cons_of_mem _ hw)]
    rfl

theorem exceptFoldM_of_map {α β σ : Type} (toG : β → α) (G : σ → α → Except VError σ)
    (step : σ → β → σ) :
    ∀ (ws : List β), (∀ w ∈ ws, ∀ s, G s (toG w) = Except.ok (step s w)) →
      ∀ init, exceptFoldM G init (ws.map toG) = Except.ok (ws.foldl step init) := by
  intro ws
  induction ws with
  | nil => intro _ init; rfl
  | cons a l ih =>
    intro h init
    rw [List.map_cons]
    show (match G init (toG a) with
      | Except.error e => Except.error e
      | Except.ok s2 => exceptFoldM G s2 (l.map toG)) = _
    rw [h a (List.mem_cons_self _ _) init]
    show exceptFoldM G (step init a) (List.map toG l) = _
    rw [ih (fun w hw => h w (List.mem_cons_of_mem _ hw)) (step init a), List.foldl_cons]

theorem exceptForM_no_error {α : Type} (f : α → Except VError Unit) (err : VError) :
    ∀ l : List α, (∀ a ∈ l, f a ≠ Except.error err) →
      exceptForM f l ≠ Except.error err := by
  intro l
  induction l with
  | nil => intro _ hcontra; exact Except.noConfusion hcontra
  | cons a l ih =>
    intro h
    show (match f a with
      | Except.error e => Except.error e
      | Except.ok _ => exceptForM f l) ≠ _
    cases hfa : f a with
    | error e =>
      intro hcontra
      exact h a (List.mem_cons_self _ _) (hfa.trans hcontra)
    | ok u =>
      exact ih fun b hb => h b (List.mem_cons_of_mem _ hb)

theorem minmaxWindow_range' (c mx s : ℕ) (hc : 0 < c) (hs : s < mx) :
    minmaxWindow mx (List.range' s (min c (mx - s))) =
      some (s, windowEnd mx (min (s + c) mx - 1)) := by
  have hn : 0 < min c (mx - s) := by omega
  unfold minmaxWindow
  rw [List.head?_range', List.getLast?_range', if_neg (by omega), if_neg (by omega)]
  have h : s + min c (mx - s) - 1 = min (s + c) mx - 1 := by omega
  rw [h]

theorem iter_chunk_groups_eq (P : ChunkedParams) (hc : 0 < P.batch_size - 1) :
    iter_chunk_groups P =
      (windowsList (P.batch_size - 1) (iter_chunk_range P).1 (iter_chunk_range P).2).map
        fun w => List.range' w.1 (min (P.batch_size - 1) ((iter_chunk_range P).2 - w.1)) := by
  unfold iter_chunk_groups groupsOf rangeList windowsList
  rw [List.length_range']
  exact groupsAux_range _ hc _ _ _ le_rfl

theorem iter_chunk_windows_eq (P : ChunkedParams) (hc : 0 < P.batch_size - 1) :
    iter_chunk_windows P =
      some (windowsList (P.batch_size - 1) (iter_chunk_range P).1 (iter_chunk_range P).2) := by
  unfold iter_chunk_windows
  rw [iter_chunk_groups_eq P hc]
  apply mapM_of_map
  intro w hw
  obtain ⟨_, hlt⟩ := windowsFrom_start_lt _ _ _ _ w hw
  have hsh := windowsFrom_shape _ _ _ _ w hw
  rw [minmaxWindow_range' _ _ _ hc hlt, ← hsh]

theorem iter_chunk_eq_forM (P : ChunkedParams) (hc : 0 < P.batch_size - 1)
    (action : ℕ → ℕ → Except VError Unit) :
    iter_chunk P action =
      exceptForM (fun w => action w.1 w.2)
        (windowsList (P.batch_size - 1) (iter_chunk_range P).1 (iter_chunk_range P).2) := by
  unfold iter_chunk
  rw [iter_chunk_groups_eq P hc]
  apply exceptForM_of_map
  intro w hw
  obtain ⟨_, hlt⟩ := windowsFrom_start_lt _ _ _ _ w hw
  have hsh := windowsFrom_shape _ _ _ _ w hw
  rw [minmaxWindow_range' _ _ _ hc hlt, ← hsh]

theorem iter_chunk_fold_eq {σ : Type} (P : ChunkedParams) (hc : 0 < P.batch_size - 1)
    (step : σ → ℕ → ℕ → σ) (init : σ) :
    iter_chunk_fold P step init =
      Except.ok
        ((windowsList (P.batch_size - 1) (iter_chunk_range P).1 (iter_chunk_range P).2).foldl
          (fun s w => step s w.1 w.2) init) := by
  unfold iter_chunk_fold
  rw [iter_chunk_groups_eq P hc]
  apply exceptFoldM_of_map
  intro w hw s
  obtain ⟨_, hlt⟩ := windowsFrom_start_lt _ _ _ _ w hw
  have hsh := windowsFrom_shape _ _ _ _ w hw
  rw [minmaxWindow_range' _ _ _ hc hlt, ← hsh]

/-- Claim C4: for batch size at least 2 and a non-empty iteration range,
the windows produced by `iter_chunk` (i) exist — no group is empty, so
`InvalidChunk` is never produced by the windowing itself — (ii) cover the
range exactly, (iii) successive windows overlap in exactly the one index
at which the later window starts, and (iv) every adjacent index pair of
the range lies inside a single window. -/
theorem c4 (P : ChunkedParams) (hb : 2 ≤ P.batch_size)
    (hne : (iter_chunk_range P).1 < (iter_chunk_range P).2) :
    ∃ ws, iter_chunk_windows P = some ws
      ∧ (∀ i, ((iter_chunk_range P).1 ≤ i ∧ i < (iter_chunk_range P).2) ↔
          ∃ w ∈ ws, w.1 ≤ i ∧ i < w.2)
      ∧ List.Chain'
          (fun w w2 => ∀ i, ((w.1 ≤ i ∧ i < w.2) ∧ (w2.1 ≤ i ∧ i < w2.2)) ↔ i = w2.1) ws
      ∧ (∀ i, (iter_chunk_range P).1 ≤ i → i + 1 < (iter_chunk_range P).2 →
          ∃ w ∈ ws, w.1 ≤ i ∧ i + 1 < w.2)
      ∧ ∀ action, (∀ s e, action s e ≠ Except.error VError.invalidChunk) →
          iter_chunk P action ≠ Except.error VError.invalidChunk := by
  have hc : 0 < P.batch_size - 1 := by omega
  set mn := (iter_chunk_range P).1 with hmn
  set mx := (iter_chunk_range P).2 with hmx
  refine ⟨windowsList (P.batch_size - 1) mn mx, iter_chunk_windows_eq P hc, ?_, ?_, ?_, ?_⟩
  · intro i
    constructor
    · intro ⟨h1, h2⟩
      exact windowsFrom_cover _ hc _ _ _ le_rfl i h1 h2
    · intro ⟨w, hw, hwi⟩
      obtain ⟨hb1, _, hb3⟩ := windowsFrom_bounds _ hc _ _ _ w hw
      exact ⟨le_trans hb1 hwi.1, lt_of_lt_of_le hwi.2 hb3⟩
  · apply List.Chain'.imp ?_ (windowsFrom_chain _ hc _ _ _)
    intro w w2 ⟨h1, h2, h3⟩ i
    constructor
    · intro ⟨⟨_, hi2⟩, ⟨hi3, _⟩⟩
      omega
    · intro hi
      subst hi
      exact ⟨⟨by omega, by omega⟩, le_refl _, h3⟩
  · intro i h1 h2
    exact windowsFrom_adjacent _ hc _ _ _ le_rfl i h1 h2
  · intro action hact
    rw [iter_chunk_eq_forM P hc action]
    exact exceptForM_no_error _ _ _ fun w _ => hact w.1 w.2

/-- Witness for claim C4: the full-mode parameters with batch size 4 over
`G = 15` powers. -/
theorem c4_witness :
    (2 ≤ (ChunkedParams.mk ContributionMode.full 0 0 4 8 15).batch_size
      ∧ (iter_chunk_range (ChunkedParams.mk ContributionMode.full 0 0 4 8 15)).1 <
          (iter_chunk_range (ChunkedParams.mk ContributionMode.full 0 0 4 8 15)).2)
    ∧ ∃ ws, iter_chunk_windows (ChunkedParams.mk ContributionMode.full 0 0 4 8 15) = some ws :=
  ⟨⟨by decide, by decide⟩,
    match c4 (ChunkedParams.mk ContributionMode.full 0 0 4 8 15) (by decide) (by decide) with
    | ⟨ws, hws, _⟩ => ⟨ws, hws⟩⟩

theorem writeAt_length {α : Type} :
    ∀ (data buf : List α) (off : ℕ), (writeAt buf off data).length = buf.length := by
  intro data
  induction data with
  | nil => intro buf off; rfl
  | cons d ds ih =>
    intro buf off
    show (writeAt (buf.set off d) (off + 1) ds).length = _
    rw [ih, List.length_set]

theorem writeAt_getElem?_outside {α : Type} :
    ∀ (data buf : List α) (off i : ℕ), i < off ∨ off + data.length ≤ i →
      (writeAt buf off data)[i]? = buf[i]? := by
  intro data
  induction data with
  | nil => intro buf off i h; rfl
  | cons d ds ih =>
    intro buf off i h
    simp only [List.length_cons] at h
    show (writeAt (buf.set off d) (off + 1) ds)[i]? = _
    rw [ih _ _ _ (by omega), List.getElem?_set_ne (by omega)]

theorem writeAt_getElem?_inside {α : Type} :
    ∀ (data buf : List α) (off i : ℕ), off ≤ i → i < off + data.length → i < buf.length →
      (writeAt buf off data)[i]? = data[i - off]? := by
  intro data
  induction data with
  | nil => intro buf off i h1 h2 _; simp only [List.length_nil] at h2; omega
  | cons d ds ih =>
    intro buf off i h1 h2 h3
    show (writeAt (buf.set off d) (off + 1) ds)[i]? = _
    by_cases hoff : i = off
    · subst hoff
      rw [writeAt_getElem?_outside ds _ _ _ (Or.inl (by omega)),
        List.getElem?_set_self (by omega)]
      simp
    · have h2' : i < (off + 1) + ds.length := by
        simp only [List.length_cons] at h2; omega
      rw [ih (buf.set off d) (off + 1) i (by omega) h2' (by rw [List.length_set]; exact h3)]
      have hsub : i - off = (i - (off + 1)) + 1 := by omega
      rw [hsub, List.getElem?_cons_succ]

theorem foldl_congr_fn {α β : Type} (f g : β → α → β) :
    ∀ (l : List α), (∀ x ∈ l, ∀ s, f s x = g s x) →
      ∀ init, l.foldl f init = l.foldl g init := by
  intro l
  induction l with
  | nil => intro _ _; rfl
  | cons a l ih =>
    intro h init
    rw [List.foldl_cons, List.foldl_cons, h a (List.mem_cons_self _ _)]
    exact ih (fun x hx s => h x (List.mem_cons_of_mem _ hx) s) _

theorem foldl_writeAt_eff {α : Type} (target : List α) (eff : ℕ × ℕ → Option (ℕ × ℕ))
    (seg : ℕ × ℕ → List α) :
    ∀ ws : List (ℕ × ℕ),
      (∀ w ∈ ws, ∀ v, eff w = some v → (seg w).length = v.2 - v.1) →
      (∀ w ∈ ws, ∀ v, eff w = some v → v.2 ≤ target.length) →
      (∀ w ∈ ws, ∀ v, eff w = some v → ∀ i, v.1 ≤ i → i < v.2 →
        (seg w)[i - v.1]? = target[i]?) →
      ∀ buf, buf.length = target.length → ∀ i,
        (ws.foldl
          (fun b w =>
            match eff w with
            | none => b
            | some v => writeAt b v.1 (seg w)) buf)[i]? =
          if ∃ w ∈ ws, ∃ v, eff w = some v ∧ v.1 ≤ i ∧ i < v.2 then target[i]?
          else buf[i]? := by
  intro ws
  induction ws with
  | nil =>
    intro _ _ _ buf hlen i
    rw [List.foldl_nil, if_neg]
    rintro ⟨w, hw, _⟩
    simp at hw
  | cons w ws ih =>
    intro hlen hbound hseg buf hbuf i
    rw [List.foldl_cons]
    have hlen' := fun x hx => hlen x (List.mem_cons_of_mem _ hx)
    have hbound' := fun x hx => hbound x (List.mem_cons_of_mem _ hx)
    have hseg' := fun x hx => hseg x (List.mem_cons_of_mem _ hx)
    have hstep : (match eff w with
        | none => buf
        | some v => writeAt buf v.1 (seg w)).length = target.length := by
      cases heff : eff w with
      | none => exact hbuf
      | some v => rw [writeAt_length]; exact hbuf
    rw [ih hlen' hbound' hseg' _ hstep i]
    by_cases hcov : ∃ x ∈ ws, ∃ v, eff x = some v ∧ v.1 ≤ i ∧ i < v.2
    · rw [if_pos hcov, if_pos]
      obtain ⟨x, hx, v, hv⟩ := hcov
      exact ⟨x, List.mem_cons_of_mem _ hx, v, hv⟩
    · rw [if_neg hcov]
      cases heff : eff w with
      | none =>
        rw [if_neg]
        rintro ⟨x, hx, v, hv, hcv⟩
        rcases List.mem_cons.mp hx with h | h
        · subst h; rw [heff] at hv; exact Option.noConfusion hv
        · exact hcov ⟨x, h, v, hv, hcv⟩
      | some v =>
        by_cases hin : v.1 ≤ i ∧ i < v.2
        · rw [if_pos ⟨w, List.mem_cons_self _ _, v, heff, hin⟩]
          have hl := hlen w (List.mem_cons_self _ _) v heff
          have hb := hbound w (List.mem_cons_self _ _) v heff
          rw [writeAt_getElem?_inside _ _ _ _ hin.1 (by omega) (by omega)]
          exact hseg w (List.mem_cons_self _ _) v heff i hin.1 hin.2
        · rw [writeAt_getElem?_outside _ _ _ _ (by
            have hl := hlen w (List.mem_cons_self _ _) v heff
            omega), if_neg]
          rintro ⟨x, hx, v2, hv2, hcv2⟩
          rcases List.mem_cons.mp hx with h | h
          · subst h; rw [heff] at hv2
            exact hin (Option.some.inj hv2 ▸ hcv2)
          · exact hcov ⟨x, h, v2, hv2, hcv2⟩

theorem windowsFrom_w2_le (c : ℕ) (hc : 0 < c) :
    ∀ fuel start mx, ∀ w ∈ windowsFrom c fuel start mx, w.2 ≤ w.1 + c + 1 := by
  intro fuel start mx w hw
  have h1 := windowsFrom_start_lt c fuel start mx w hw
  have h2 := windowsFrom_shape c fuel start mx w hw
  rw [h2]
  unfold windowEnd
  split_ifs <;> omega

theorem windowsFrom_w2_ge (c : ℕ) (hc : 0 < c) :
    ∀ fuel start mx, ∀ w ∈ windowsFrom c fuel start mx, min (w.1 + c) mx ≤ w.2 := by
  intro fuel start mx w hw
  have h1 := windowsFrom_start_lt c fuel start mx w hw
  have h2 := windowsFrom_shape c fuel start mx w hw
  rw [h2]
  unfold windowEnd
  split_ifs <;> omega

theorem iter_chunk_range_full (P : ChunkedParams) (h : P.contribution_mode = ContributionMode.full) :
    iter_chunk_range P = (0, P.powers_g1_length) := by
  simp [iter_chunk_range, h]

theorem chunk_offsets_full (P : ChunkedParams) (h : P.contribution_mode = ContributionMode.full)
    (a b : ℕ) : chunk_offsets P a b = (a, b) := by
  simp [chunk_offsets, h]

theorem contribute_step_eq (p : ℕ) (key : PrivateKey p) (P : ChunkedParams)
    (inp acc : Accumulator p) (s e : ℕ) :
    contribute_step p key P inp acc s e =
      ⟨tau_g1_step p key P inp.tauG1 acc.tauG1 (s, e),
        other_array_step p key P inp.tauG2 none acc.tauG2 (s, e),
        other_array_step p key P inp.alphaG1 (some key.alpha) acc.alphaG1 (s, e),
        other_array_step p key P inp.betaG1 (some key.beta) acc.betaG1 (s, e),
        acc.betaG2⟩ := by
  unfold contribute_step tau_g1_step other_array_step
  by_cases h : s < P.powers_length
  · simp only [if_pos h]
  · simp only [if_neg h]

theorem contribute_fold_proj (p : ℕ) (key : PrivateKey p) (P : ChunkedParams)
    (inp : Accumulator p) :
    ∀ (ws : List (ℕ × ℕ)) (acc : Accumulator p),
      ws.foldl (fun a w => contribute_step p key P inp a w.1 w.2) acc =
        ⟨ws.foldl (tau_g1_step p key P inp.tauG1) acc.tauG1,
          ws.foldl (other_array_step p key P inp.tauG2 none) acc.tauG2,
          ws.foldl (other_array_step p key P inp.alphaG1 (some key.alpha)) acc.alphaG1,
          ws.foldl (other_array_step p key P inp.betaG1 (some key.beta)) acc.betaG1,
          acc.betaG2⟩ := by
  intro ws
  induction ws with
  | nil => intro acc; rfl
  | cons w ws ih =>
    intro acc
    simp only [List.foldl_cons]
    rw [contribute_step_eq, ih]

theorem fold_tau_g1_full (p : ℕ) (key : PrivateKey p) (P : ChunkedParams)
    (src : List (ZMod p)) (hmode : P.contribution_mode = ContributionMode.full)
    (hb : 2 ≤ P.batch_size) (hlen : src.length = P.powers_g1_length) :
    ∀ buf : List (ZMod p), buf.length = P.powers_g1_length →
      (windowsList (P.batch_size - 1) 0 P.powers_g1_length).foldl
          (tau_g1_step p key P src) buf =
        src.mapIdx fun i x => x * key.tau ^ i := by
  intro buf hbuf
  have hc : 0 < P.batch_size - 1 := by omega
  have hstep : ∀ w ∈ windowsList (P.batch_size - 1) 0 P.powers_g1_length,
      ∀ b : List (ZMod p), tau_g1_step p key P src b w =
        (fun (b : List (ZMod p)) (w : ℕ × ℕ) =>
          match (fun (w : ℕ × ℕ) => some w) w with
          | none => b
          | some v =>
            writeAt b v.1
              (batch_exp p (subSlice src w.1 w.2)
                ((generate_powers_of_tau p key.tau w.1 w.2).take (w.2 - w.1)) none)) b w := by
    intro w _ b
    simp only [tau_g1_step, apply_powers, chunk_offsets_full P hmode]
  apply List.ext_getElem?
  intro i
  rw [foldl_congr_fn _ _ _ hstep buf]
  have hL : ∀ w ∈ windowsList (P.batch_size - 1) 0 P.powers_g1_length,
      ∀ v : ℕ × ℕ, some w = some v →
        (batch_exp p (subSlice src w.1 w.2)
          ((generate_powers_of_tau p key.tau w.1 w.2).take (w.2 - w.1)) none).length =
          v.2 - v.1 := by
    intro w hw v hv
    obtain ⟨h1, h2, h3⟩ := windowsFrom_bounds _ hc _ _ _ w hw
    cases hv
    simp only [batch_exp, subSlice, generate_powers_of_tau, List.length_zipWith,
      List.length_take, List.length_drop, List.length_map, List.length_range']
    omega
  have hB : ∀ w ∈ windowsList (P.batch_size - 1) 0 P.powers_g1_length,
      ∀ v : ℕ × ℕ, some w = some v →
        v.2 ≤ (src.mapIdx fun i x => x * key.tau ^ i).length := by
    intro w hw v hv
    obtain ⟨h1, h2, h3⟩ := windowsFrom_bounds _ hc _ _ _ w hw
    cases hv
    rw [List.length_mapIdx, hlen]
    exact h3
  have hS : ∀ w ∈ windowsList (P.batch_size - 1) 0 P.powers_g1_length,
      ∀ v : ℕ × ℕ, some w = some v → ∀ i, v.1 ≤ i → i < v.2 →
        (batch_exp p (subSlice src w.1 w.2)
          ((generate_powers_of_tau p key.tau w.1 w.2).take (w.2 - w.1)) none)[i - v.1]? =
          (src.mapIdx fun i x => x * key.tau ^ i)[i]? := by
    intro w hw v hv i hi1 hi2
    obtain ⟨h1, h2, h3⟩ := windowsFrom_bounds _ hc _ _ _ w hw
    cases hv
    have hj : i - w.1 < w.2 - w.1 := by omega
    have hisrc : i < src.length := by omega
    rw [List.getElem?_mapIdx, List.getElem?_eq_getElem hisrc]
    simp only [batch_exp, List.getElem?_zipWith]
    rw [subSlice, List.getElem?_take_of_lt hj, List.getElem?_drop,
      List.getElem?_take_of_lt hj]
    have hadd : w.1 + (i - w.1) = i := by omega
    rw [hadd, List.getElem?_eq_getElem hisrc]
    simp only [generate_powers_of_tau, List.getElem?_map,
      List.getElem?_range' _ _ hj, Option.map_some']
    have hpow : w.1 + 1 * (i - w.1) = i := by omega
    rw [hpow]
  rw [foldl_writeAt_eff _ _ _ _ hL hB hS buf
    (by rw [List.length_mapIdx, hlen, hbuf]) i]
  by_cases hcov : ∃ w ∈ windowsList (P.batch_size - 1) 0 P.powers_g1_length,
      ∃ v : ℕ × ℕ, some w = some v ∧ v.1 ≤ i ∧ i < v.2
  · rw [if_pos hcov]
  · rw [if_neg hcov]
    have hge : P.powers_g1_length ≤ i := by
      by_contra hlt
      push_neg at hlt
      obtain ⟨w, hw, hwi⟩ :=
        windowsFrom_cover _ hc (P.powers_g1_length - 0) 0 P.powers_g1_length le_rfl i
          (Nat.zero_le i) hlt
      exact hcov ⟨w, hw, w, rfl, hwi⟩
    rw [List.getElem?_eq_none (by omega), List.getElem?_eq_none (by rw [List.length_mapIdx]; omega)]

theorem fold_other_full (p : ℕ) (key : PrivateKey p) (P : ChunkedParams)
    (src : List (ZMod p)) (coeff : Option (ZMod p))
    (hmode : P.contribution_mode = ContributionMode.full)
    (hb : 2 ≤ P.batch_size) (hLG : P.powers_length ≤ P.powers_g1_length)
    (hlen : src.length = P.powers_length) :
    ∀ buf : List (ZMod p), buf.length = P.powers_length →
      (windowsList (P.batch_size - 1) 0 P.powers_g1_length).foldl
          (other_array_step p key P src coeff) buf =
        src.mapIdx fun i x =>
          match coeff with
          | none => x * key.tau ^ i
          | some co => x * (key.tau ^ i * co) := by
  intro buf hbuf
  have hc : 0 < P.batch_size - 1 := by omega
  set eff : ℕ × ℕ → Option (ℕ × ℕ) := fun w =>
    if w.1 < P.powers_length then
      some (w.1, if P.powers_length < w.1 + P.batch_size then P.powers_length else w.2)
    else none with heff
  set seg : ℕ × ℕ → List (ZMod p) := fun w =>
    batch_exp p
      (subSlice src w.1
        (if P.powers_length < w.1 + P.batch_size then P.powers_length else w.2))
      ((generate_powers_of_tau p key.tau w.1 w.2).take
        ((if P.powers_length < w.1 + P.batch_size then P.powers_length else w.2) - w.1))
      coeff with hseg0
  have hstep : ∀ w ∈ windowsList (P.batch_size - 1) 0 P.powers_g1_length,
      ∀ b : List (ZMod p), other_array_step p key P src coeff b w =
        (fun (b : List (ZMod p)) (w : ℕ × ℕ) =>
          match eff w with
          | none => b
          | some v => writeAt b v.1 (seg w)) b w := by
    intro w _ b
    simp only [other_array_step, apply_powers, chunk_offsets_full P hmode, heff, hseg0]
    by_cases h : w.1 < P.powers_length
    · simp only [if_pos h]
    · simp only [if_neg h]
  have hfacts : ∀ w ∈ windowsList (P.batch_size - 1) 0 P.powers_g1_length,
      ∀ v, eff w = some v →
        v.1 = w.1 ∧ w.1 ≤ v.2 ∧ v.2 ≤ P.powers_length ∧ v.2 ≤ w.2 ∧ w.1 < P.powers_length := by
    intro w hw v hv
    obtain ⟨h1, h2, h3⟩ := windowsFrom_bounds _ hc _ _ _ w hw
    have h4 := windowsFrom_w2_le _ hc _ _ _ w hw
    have h5 := windowsFrom_w2_ge _ hc _ _ _ w hw
    simp only [heff] at hv
    by_cases hcond : w.1 < P.powers_length
    · rw [if_pos hcond] at hv
      cases hv
      refine ⟨rfl, ?_, ?_, ?_, hcond⟩ <;> (dsimp only; split_ifs <;> omega)
    · rw [if_neg hcond] at hv
      exact absurd hv (by simp)
  have hL : ∀ w ∈ windowsList (P.batch_size - 1) 0 P.powers_g1_length,
      ∀ v, eff w = some v → (seg w).length = v.2 - v.1 := by
    intro w hw v hv
    obtain ⟨hv1, hv2, hv3, hv4, hv5⟩ := hfacts w hw v hv
    simp only [heff] at hv
    rw [if_pos hv5] at hv
    cases hv
    simp only [hseg0, batch_exp, subSlice, generate_powers_of_tau, List.length_zipWith,
      List.length_take, List.length_drop, List.length_map, List.length_range']
    simp only [hseg0] at hv2 hv3 hv4 ⊢
    omega
  have hB : ∀ w ∈ windowsList (P.batch_size - 1) 0 P.powers_g1_length,
      ∀ v, eff w = some v →
        v.2 ≤ (src.mapIdx fun i x =>
          match coeff with
          | none => x * key.tau ^ i
          | some co => x * (key.tau ^ i * co)).length := by
    intro w hw v hv
    obtain ⟨hv1, hv2, hv3, hv4, hv5⟩ := hfacts w hw v hv
    rw [List.length_mapIdx, hlen]
    exact hv3
  have hS : ∀ w ∈ windowsList (P.batch_size - 1) 0 P.powers_g1_length,
      ∀ v, eff w = some v → ∀ i, v.1 ≤ i → i < v.2 →
        (seg w)[i - v.1]? =
          (src.mapIdx fun i x =>
            match coeff with
            | none => x * key.tau ^ i
            | some co => x * (key.tau ^ i * co))[i]? := by
    intro w hw v hv i hi1 hi2
    obtain ⟨hv1, hv2, hv3, hv4, hv5⟩ := hfacts w hw v hv
    simp only [heff] at hv
    rw [if_pos hv5] at hv
    cases hv
    have hj : i - w.1 <
        (if P.powers_length < w.1 + P.batch_size then P.powers_length else w.2) - w.1 := by
      omega
    have hjw : i - w.1 < w.2 - w.1 := by omega
    have hisrc : i < src.length := by omega
    rw [List.getElem?_mapIdx, List.getElem?_eq_getElem hisrc]
    simp only [hseg0, batch_exp, List.getElem?_zipWith]
    rw [subSlice, List.getElem?_take_of_lt hj, List.getElem?_drop]
    have hadd : w.1 + (i - w.1) = i := by omega
    rw [hadd, List.getElem?_eq_getElem hisrc, List.getElem?_take_of_lt hj]
    simp only [generate_powers_of_tau, List.getElem?_map,
      List.getElem?_range' _ _ hjw, Option.map_some']
    have hpow : w.1 + 1 * (i - w.1) = i := by omega
    rw [hpow]
    cases coeff <;> rfl
  apply List.ext_getElem?
  intro i
  rw [foldl_congr_fn _ _ _ hstep buf]
  rw [foldl_writeAt_eff _ _ _ _ hL hB hS buf
    (by rw [List.length_mapIdx, hlen, hbuf]) i]
  by_cases hcov : ∃ w ∈ windowsList (P.batch_size - 1) 0 P.powers_g1_length,
      ∃ v, eff w = some v ∧ v.1 ≤ i ∧ i < v.2
  · rw [if_pos hcov]
  · rw [if_neg hcov]
    have hge : P.powers_length ≤ i := by
      by_contra hlt
      push_neg at hlt
      obtain ⟨w, hw, hwi⟩ :=
        windowsFrom_cover _ hc (P.powers_g1_length - 0) 0 P.powers_g1_length le_rfl i
          (Nat.zero_le i) (by omega)
      have hw1 : w.1 < P.powers_length := by omega
      refine absurd ?_ hcov
      by_cases he2 : P.powers_length < w.1 + P.batch_size
      · exact ⟨w, hw, (w.1, P.powers_length),
          by simp only [heff, if_pos hw1, if_pos he2], hwi.1, by omega⟩
      · exact ⟨w, hw, (w.1, w.2),
          by simp only [heff, if_pos hw1, if_neg he2], hwi.1, hwi.2⟩
    rw [List.getElem?_eq_none (by omega),
      List.getElem?_eq_none (by rw [List.length_mapIdx]; omega)]

theorem contribute_full_ok (p : ℕ) (key : PrivateKey p) (P : ChunkedParams)
    (inp outInit : Accumulator p) (chk : CheckForCorrectness)
    (hmode : P.contribution_mode = ContributionMode.full)
    (hb : 2 ≤ P.batch_size)
    (hLG : P.powers_length ≤ P.powers_g1_length)
    (hszA : accumulator_sizes_ok p P inp) (hszO : accumulator_sizes_ok p P outInit)
    (hread : chk = CheckForCorrectness.no ∨ inp.betaG2 ≠ 0) :
    contribute p key P inp chk outInit = Except.ok (contribute_expected p key inp) := by
  obtain ⟨hA1, hA2, hA3, hA4⟩ := hszA
  obtain ⟨hO1, hO2, hO3, hO4⟩ := hszO
  have hc : 0 < P.batch_size - 1 := by omega
  have hred : read_element p inp.betaG2 chk = Except.ok inp.betaG2 := by
    cases chk with
    | no => rfl
    | both =>
      rcases hread with h | h
      · exact absurd h (by simp)
      · simp [read_element, h]
  unfold contribute
  rw [hred]
  show iter_chunk_fold P _ _ = _
  rw [iter_chunk_fold_eq P hc, iter_chunk_range_full P hmode]
  rw [contribute_fold_proj]
  unfold contribute_expected
  refine congrArg Except.ok ?_
  simp only [Accumulator.mk.injEq]
  refine ⟨?_, ?_, ?_, ?_, trivial⟩
  · exact fold_tau_g1_full p key P inp.tauG1 hmode hb hA1 outInit.tauG1 hO1
  · exact fold_other_full p key P inp.tauG2 none hmode hb hLG hA2 outInit.tauG2 hO2
  · exact fold_other_full p key P inp.alphaG1 (some key.alpha) hmode hb hLG hA3
      outInit.alphaG1 hO3
  · exact fold_other_full p key P inp.betaG1 (some key.beta) hmode hb hLG hA4
      outInit.betaG1 hO4

theorem contribute_expected_sizes (p : ℕ) (key : PrivateKey p) (P : ChunkedParams)
    (A : Accumulator p) (h : accumulator_sizes_ok p P A) :
    accumulator_sizes_ok p P (contribute_expected p key A) := by
  obtain ⟨h1, h2, h3, h4⟩ := h
  exact ⟨by simp [contribute_expected, h1], by simp [contribute_expected, h2],
    by simp [contribute_expected, h3], by simp [contribute_expected, h4]⟩

theorem contribute_expected_compose (p : ℕ) (k1 k2 : PrivateKey p) (A : Accumulator p) :
    contribute_expected p k2 (contribute_expected p k1 A) =
      contribute_expected p ⟨k1.tau * k2.tau, k1.alpha * k2.alpha, k1.beta * k2.beta⟩ A := by
  unfold contribute_expected
  simp only [Accumulator.mk.injEq]
  refine ⟨?_, ?_, ?_, ?_, by rw [mul_assoc]⟩ <;>
    · apply List.ext_getElem?
      intro i
      simp only [List.getElem?_mapIdx]
      rw [Option.map_map]
      refine congrFun (congrArg Option.map ?_) _
      funext x
      simp only [Function.comp_apply]
      rw [mul_pow]
      ring

/-- Claim C2: contributions compose — applying `contribute` with keys `k1`
then `k2` equals a single contribution with the componentwise products of
the keys; in particular, starting from the freshly initialised
accumulator, the βG2 singleton after two contributions is `g2^(β1·β2)`. -/
theorem c2 (p : ℕ) (k1 k2 : PrivateKey p) (P : ChunkedParams)
    (A out0 out1 out2 : Accumulator p)
    (hmode : P.contribution_mode = ContributionMode.full)
    (hb : 2 ≤ P.batch_size)
    (hLG : P.powers_length ≤ P.powers_g1_length)
    (hszA : accumulator_sizes_ok p P A) (hsz0 : accumulator_sizes_ok p P out0)
    (hsz1 : accumulator_sizes_ok p P out1) (hsz2 : accumulator_sizes_ok p P out2) :
    ∃ B C D : Accumulator p,
      contribute p k1 P A CheckForCorrectness.no out0 = Except.ok B
      ∧ contribute p k2 P B CheckForCorrectness.no out1 = Except.ok C
      ∧ contribute p ⟨k1.tau * k2.tau, k1.alpha * k2.alpha, k1.beta * k2.beta⟩ P A
          CheckForCorrectness.no out2 = Except.ok D
      ∧ C = D
      ∧ (A = init_accumulator p P → C.betaG2 = k1.beta * k2.beta) := by
  refine ⟨contribute_expected p k1 A,
    contribute_expected p k2 (contribute_expected p k1 A),
    contribute_expected p ⟨k1.tau * k2.tau, k1.alpha * k2.alpha, k1.beta * k2.beta⟩ A,
    ?_, ?_, ?_, contribute_expected_compose p k1 k2 A, ?_⟩
  · exact contribute_full_ok p k1 P A out0 _ hmode hb hLG hszA hsz0 (Or.inl rfl)
  · exact contribute_full_ok p k2 P _ out1 _ hmode hb hLG
      (contribute_expected_sizes p k1 P A hszA) hsz1 (Or.inl rfl)
  · exact contribute_full_ok p _ P A out2 _ hmode hb hLG hszA hsz2 (Or.inl rfl)
  · intro hA
    subst hA
    simp [contribute_expected, init_accumulator]

/-- Witness for claim C2 over `ZMod 7` with `L = 2`, `G = 3`, batch 4. -/
theorem c2_witness :
    ((ChunkedParams.mk ContributionMode.full 0 0 4 2 3).contribution_mode =
        ContributionMode.full
      ∧ 2 ≤ (ChunkedParams.mk ContributionMode.full 0 0 4 2 3).batch_size
      ∧ (ChunkedParams.mk ContributionMode.full 0 0 4 2 3).powers_length ≤
          (ChunkedParams.mk ContributionMode.full 0 0 4 2 3).powers_g1_length
      ∧ accumulator_sizes_ok 7 (ChunkedParams.mk ContributionMode.full 0 0 4 2 3)
          (init_accumulator 7 (ChunkedParams.mk ContributionMode.full 0 0 4 2 3)))
    ∧ ∃ B C D : Accumulator 7,
      contribute 7 (PrivateKey.mk 2 3 4) (ChunkedParams.mk ContributionMode.full 0 0 4 2 3)
          (init_accumulator 7 (ChunkedParams.mk ContributionMode.full 0 0 4 2 3))
          CheckForCorrectness.no
          (init_accumulator 7 (ChunkedParams.mk ContributionMode.full 0 0 4 2 3)) =
        Except.ok B
      ∧ contribute 7 (PrivateKey.mk 3 2 5) (ChunkedParams.mk ContributionMode.full 0 0 4 2 3)
          B CheckForCorrectness.no
          (init_accumulator 7 (ChunkedParams.mk ContributionMode.full 0 0 4 2 3)) =
        Except.ok C
      ∧ contribute 7 (PrivateKey.mk (2 * 3) (3 * 2) (4 * 5))
          (ChunkedParams.mk ContributionMode.full 0 0 4 2 3)
          (init_accumulator 7 (ChunkedParams.mk ContributionMode.full 0 0 4 2 3))
          CheckForCorrectness.no
          (init_accumulator 7 (ChunkedParams.mk ContributionMode.full 0 0 4 2 3)) =
        Except.ok D
      ∧ C = D
      ∧ (init_accumulator 7 (ChunkedParams.mk ContributionMode.full 0 0 4 2 3) =
            init_accumulator 7 (ChunkedParams.mk ContributionMode.full 0 0 4 2 3) →
          C.betaG2 = (4 : ZMod 7) * 5) :=
  ⟨⟨rfl, by decide, by decide, ⟨rfl, rfl, rfl, rfl⟩⟩,
    c2 7 (PrivateKey.mk 2 3 4) (PrivateKey.mk 3 2 5)
      (ChunkedParams.mk ContributionMode.full 0 0 4 2 3)
      (init_accumulator 7 (ChunkedParams.mk ContributionMode.full 0 0 4 2 3))
      (init_accumulator 7 (ChunkedParams.mk ContributionMode.full 0 0 4 2 3))
      (init_accumulator 7 (ChunkedParams.mk ContributionMode.full 0 0 4 2 3))
      (init_accumulator 7 (ChunkedParams.mk ContributionMode.full 0 0 4 2 3))
      rfl (by decide) (by decide) ⟨rfl, rfl, rfl, rfl⟩ ⟨rfl, rfl, rfl, rfl⟩
      ⟨rfl, rfl, rfl, rfl⟩ ⟨rfl, rfl, rfl, rfl⟩⟩

theorem verify_loop_only (p : ℕ) (cg2s : List ℕ → ZMod p × ZMod p → ℕ → ZMod p)
    (inp : Accumulator p) (chkIn : CheckForCorrectness) (out : Accumulator p)
    (chkOut : CheckForCorrectness) (key : PublicKey p) (digest : List ℕ)
    (P : ChunkedParams) (hmode : P.contribution_mode = ContributionMode.chunked)
    (hidx : 0 < P.chunk_index) :
    verify_pok_and_correctness p cg2s inp chkIn out chkOut key digest P =
      window_subgroup_checks p out P := by
  unfold verify_pok_and_correctness window_subgroup_checks
  have hcond : ¬(P.contribution_mode = ContributionMode.full ∨ P.chunk_index = 0) := by
    rintro (h | h)
    · rw [hmode] at h
      exact ContributionMode.noConfusion h
    · omega
  rw [if_neg hcond]
  rfl

theorem verify_header_split (p : ℕ) (cg2s : List ℕ → ZMod p × ZMod p → ℕ → ZMod p)
    (inp : Accumulator p) (chkIn : CheckForCorrectness) (out : Accumulator p)
    (chkOut : CheckForCorrectness) (key : PublicKey p) (digest : List ℕ)
    (P : ChunkedParams)
    (h : P.contribution_mode = ContributionMode.full ∨ P.chunk_index = 0) :
    verify_pok_and_correctness p cg2s inp chkIn out chkOut key digest P =
      (header_pok_checks p cg2s inp chkIn out chkOut key digest >>= fun _ =>
        window_subgroup_checks p out P) := by
  unfold verify_pok_and_correctness window_subgroup_checks header_pok_checks
  rw [if_pos h]

/-- Claim C5: `verify_pok_and_correctness` performs the proof-of-knowledge,
generator and before/after ratio checks exactly when the mode is `Full` or
the chunk index is `0`; a chunked verification with positive chunk index
performs only the per-window zero/subgroup checks on the output — in
particular its result does not depend on the input accumulator, the public
key, the digest, the hash function or the read-check flags. -/
theorem c5 (p : ℕ) :
    (∀ (cg2s : List ℕ → ZMod p × ZMod p → ℕ → ZMod p) (inp : Accumulator p)
        (chkIn : CheckForCorrectness) (out : Accumulator p)
        (chkOut : CheckForCorrectness) (key : PublicKey p) (digest : List ℕ)
        (P : ChunkedParams),
      P.contribution_mode = ContributionMode.chunked → 0 < P.chunk_index →
        verify_pok_and_correctness p cg2s inp chkIn out chkOut key digest P =
          window_subgroup_checks p out P)
    ∧ (∀ (cg2s : List ℕ → ZMod p × ZMod p → ℕ → ZMod p) (inp : Accumulator p)
        (chkIn : CheckForCorrectness) (out : Accumulator p)
        (chkOut : CheckForCorrectness) (key : PublicKey p) (digest : List ℕ)
        (P : ChunkedParams),
      P.contribution_mode = ContributionMode.full ∨ P.chunk_index = 0 →
        verify_pok_and_correctness p cg2s inp chkIn out chkOut key digest P =
          (header_pok_checks p cg2s inp chkIn out chkOut key digest >>= fun _ =>
            window_subgroup_checks p out P))
    ∧ (∀ (cg2s cg2s2 : List ℕ → ZMod p × ZMod p → ℕ → ZMod p)
        (inp inp2 : Accumulator p) (chkIn chkIn2 : CheckForCorrectness)
        (out : Accumulator p) (chkOut : CheckForCorrectness)
        (key key2 : PublicKey p) (digest digest2 : List ℕ) (P : ChunkedParams),
      P.contribution_mode = ContributionMode.chunked → 0 < P.chunk_index →
        verify_pok_and_correctness p cg2s inp chkIn out chkOut key digest P =
          verify_pok_and_correctness p cg2s2 inp2 chkIn2 out chkOut key2 digest2 P) := by
  refine ⟨fun cg2s inp chkIn out chkOut key digest P hmode hidx =>
      verify_loop_only p cg2s inp chkIn out chkOut key digest P hmode hidx,
    fun cg2s inp chkIn out chkOut key digest P h =>
      verify_header_split p cg2s inp chkIn out chkOut key digest P h, ?_⟩
  intro cg2s cg2s2 inp inp2 chkIn chkIn2 out chkOut key key2 digest digest2 P hmode hidx
  rw [verify_loop_only p cg2s inp chkIn out chkOut key digest P hmode hidx,
    verify_loop_only p cg2s2 inp2 chkIn2 out chkOut key2 digest2 P hmode hidx]

/-- Witness for claim C5: a chunked verification of chunk 1 over `ZMod 7`
equals the bare window checks for arbitrary concrete key material. -/
theorem c5_witness :
    ((ChunkedParams.mk ContributionMode.chunked 1 2 4 2 3).contribution_mode =
        ContributionMode.chunked
      ∧ 0 < (ChunkedParams.mk ContributionMode.chunked 1 2 4 2 3).chunk_index)
    ∧ verify_pok_and_correctness 7 (fun _ _ _ => 1)
        (init_accumulator 7 (ChunkedParams.mk ContributionMode.chunked 1 2 4 2 3))
        CheckForCorrectness.both
        (init_accumulator 7 (ChunkedParams.mk ContributionMode.chunked 1 2 4 2 3))
        CheckForCorrectness.both
        (PublicKey.mk (1, 2) (1, 3) (1, 4) 2 3 4) [0] 
        (ChunkedParams.mk ContributionMode.chunked 1 2 4 2 3) =
      window_subgroup_checks 7
        (init_accumulator 7 (ChunkedParams.mk ContributionMode.chunked 1 2 4 2 3))
        (ChunkedParams.mk ContributionMode.chunked 1 2 4 2 3) :=
  ⟨⟨rfl, by decide⟩,
    (c5 7).1 (fun _ _ _ => 1)
      (init_accumulator 7 (ChunkedParams.mk ContributionMode.chunked 1 2 4 2 3))
      CheckForCorrectness.both
      (init_accumulator 7 (ChunkedParams.mk ContributionMode.chunked 1 2 4 2 3))
      CheckForCorrectness.both
      (PublicKey.mk (1, 2) (1, 3) (1, 4) 2 3 4) [0]
      (ChunkedParams.mk ContributionMode.chunked 1 2 4 2 3) rfl (by decide)⟩

theorem exceptForM_ok {α : Type} (f : α → Except VError Unit) :
    ∀ l : List α, (∀ a ∈ l, f a = Except.ok ()) → exceptForM f l = Except.ok () := by
  intro l
  induction l with
  | nil => intro _; rfl
  | cons a l ih =>
    intro h
    show (match f a with
      | Except.error e => Except.error e
      | Except.ok _ => exceptForM f l) = _
    rw [h a (List.mem_cons_self _ _)]
    exact ih fun b hb => h b (List.mem_cons_of_mem _ hb)

theorem except_ok_bind {α β : Type} (x : α) (f : α → Except VError β) :
    (Except.ok x >>= f) = f x := rfl

theorem read_batch_ok (p : ℕ) (xs : List (ZMod p)) (chk : CheckForCorrectness)
    (h : chk = CheckForCorrectness.no ∨ ∀ x ∈ xs, x ≠ 0) :
    read_batch p xs chk = Except.ok xs := by
  cases chk with
  | no => rfl
  | both =>
    rcases h with h | h
    · exact absurd h (by simp)
    · unfold read_batch
      rw [if_neg]
      push_neg
      exact h

theorem read_initial_elements_of (p : ℕ) (xs : List (ZMod p))
    (chk : CheckForCorrectness) (a b : ZMod p)
    (ha : xs[0]? = some a) (hb : xs[1]? = some b)
    (hz : chk = CheckForCorrectness.no ∨ (a ≠ 0 ∧ b ≠ 0)) :
    read_initial_elements p xs chk = Except.ok (a, b) := by
  match xs with
  | [] => exact absurd ha (by simp)
  | [x] => exact absurd hb (by simp)
  | x :: y :: t =>
    simp only [List.getElem?_cons_zero, Option.some.injEq] at ha
    simp only [List.getElem?_cons_succ, List.getElem?_cons_zero, Option.some.injEq] at hb
    obtain rfl := ha.symm
    obtain rfl := hb.symm
    unfold read_initial_elements
    have htake : (a :: b :: t).take 2 = [a, b] := rfl
    rw [htake, read_batch_ok p [a, b] chk (by
      rcases hz with h | h
      · exact Or.inl h
      · refine Or.inr ?_
        intro x hx
        rcases List.mem_cons.mp hx with h1 | h1
        · exact h1 ▸ h.1
        · rcases List.mem_cons.mp h1 with h2 | h2
          · exact h2 ▸ h.2
          · simp at h2)]

theorem check_same_ratio_eq_ok (p : ℕ) (a b c d : ZMod p) (ctx : RatioContext)
    (h : a * d = b * c) : check_same_ratio p (a, b) (c, d) ctx = Except.ok () := by
  unfold check_same_ratio
  rw [if_pos h]

theorem subgroup_check_ok (p : ℕ) (xs : List (ZMod p)) (pad : ℕ)
    (hx : ∀ x ∈ xs, x ≠ 0) :
    check_elements_are_non_zero_and_in_prime_order_subgroup p xs pad = Except.ok () := by
  unfold check_elements_are_non_zero_and_in_prime_order_subgroup
  rw [read_batch_ok p xs CheckForCorrectness.both (Or.inr hx)]
  dsimp only
  rw [if_pos]
  intro x _
  rw [ZMod.natCast_self, zero_mul]

theorem subSlice_ne_zero (p : ℕ) (l : List (ZMod p)) (a b : ℕ)
    (h : ∀ x ∈ l, x ≠ 0) : ∀ x ∈ subSlice l a b, x ≠ 0 := by
  intro x hx
  exact h x (List.mem_of_mem_drop (List.mem_of_mem_take hx))

theorem mapIdx_ne_zero (p : ℕ) (l : List (ZMod p)) (f : ℕ → ZMod p → ZMod p)
    (hf : ∀ i x, x ≠ 0 → f i x ≠ 0) (hl : ∀ x ∈ l, x ≠ 0) :
    ∀ x ∈ l.mapIdx f, x ≠ 0 := by
  intro x hx
  obtain ⟨i, hi⟩ := List.mem_iff_getElem?.mp hx
  rw [List.getElem?_mapIdx] at hi
  cases hli : l[i]? with
  | none => rw [hli] at hi; exact Option.noConfusion hi
  | some y =>
    rw [hli] at hi
    simp only [Option.map_some', Option.some.injEq] at hi
    exact hi ▸ hf i y (hl y (List.getElem?_mem hli))

theorem window_subgroup_checks_ok (p : ℕ) (out : Accumulator p) (P : ChunkedParams)
    (hmode : P.contribution_mode = ContributionMode.full) (hb : 2 ≤ P.batch_size)
    (h1 : ∀ x ∈ out.tauG1, x ≠ 0) (h2 : ∀ x ∈ out.tauG2, x ≠ 0)
    (h3 : ∀ x ∈ out.alphaG1, x ≠ 0) (h4 : ∀ x ∈ out.betaG1, x ≠ 0) :
    window_subgroup_checks p out P = Except.ok () := by
  unfold window_subgroup_checks
  rw [iter_chunk_eq_forM P (by omega)]
  apply exceptForM_ok
  intro w _
  dsimp only
  rw [chunk_offsets_full P hmode]
  dsimp only
  rw [subgroup_check_ok p _ _ (subSlice_ne_zero p _ _ _ h1)]
  dsimp only
  by_cases hsL : w.1 < P.powers_length
  · rw [if_pos hsL, chunk_offsets_full P hmode]
    dsimp only
    rw [subgroup_check_ok p _ _ (subSlice_ne_zero p _ _ _ h2)]
    dsimp only
    rw [subgroup_check_ok p _ _ (subSlice_ne_zero p _ _ _ h3)]
    dsimp only
    rw [subgroup_check_ok p _ _ (subSlice_ne_zero p _ _ _ h4)]
  · rw [if_neg hsL]

theorem read_element_ok (p : ℕ) (x : ZMod p) (chk : CheckForCorrectness)
    (h : chk = CheckForCorrectness.no ∨ x ≠ 0) : read_element p x chk = Except.ok x := by
  cases chk with
  | no => rfl
  | both =>
    rcases h with h | h
    · exact absurd h (by simp)
    · unfold read_element
      rw [if_neg h]

theorem header_pok_checks_ok (p : ℕ) (cg2s : List ℕ → ZMod p × ZMod p → ℕ → ZMod p)
    (digest : List ℕ) (key : PrivateKey p) (s1 s2 s3 : ZMod p)
    (inp out : Accumulator p) (chkIn chkOut : CheckForCorrectness)
    (x0 x1 y0 y1 a0 a1 aa1 b0 b1 bb1 z : ZMod p)
    (hin1 : read_initial_elements p inp.tauG1 chkIn = Except.ok (x0, x1))
    (hout1 : read_initial_elements p out.tauG1 chkOut = Except.ok (1, x1 * key.tau))
    (hin2 : read_initial_elements p inp.tauG2 chkIn = Except.ok (y0, y1))
    (hout2 : read_initial_elements p out.tauG2 chkOut = Except.ok (1, y1 * key.tau))
    (hina : read_initial_elements p inp.alphaG1 chkIn = Except.ok (a0, a1))
    (houta : read_initial_elements p out.alphaG1 chkOut = Except.ok (a0 * key.alpha, aa1))
    (hinb : read_initial_elements p inp.betaG1 chkIn = Except.ok (b0, b1))
    (houtb : read_initial_elements p out.betaG1 chkOut = Except.ok (b0 * key.beta, bb1))
    (hing : read_element p inp.betaG2 chkIn = Except.ok z)
    (houtg : read_element p out.betaG2 chkOut = Except.ok (z * key.beta)) :
    header_pok_checks p cg2s inp chkIn out chkOut
      (public_key_of p cg2s digest key s1 s2 s3) digest = Except.ok () := by
  unfold header_pok_checks public_key_of compute_g2_s_key
  dsimp only
  simp [check_same_ratio, except_ok_bind, hin1, hout1, hin2, hout2, hina, houta,
    hinb, houtb, hing, houtg, mul_comm, mul_assoc, mul_left_comm]

/-- Claim C1: for a private key of nonzero fresh scalars and a well-formed
input accumulator (correct array lengths, generator in the first τG1/τG2
slot, no zero points), running `contribute` and then
`verify_pok_and_correctness` on the (input, output) pair with the public
key derived from the same private key, random G1 bases and digest
succeeds. -/
theorem c1 (p : ℕ) [Fact (Nat.Prime p)]
    (cg2s : List ℕ → ZMod p × ZMod p → ℕ → ZMod p) (digest : List ℕ)
    (key : PrivateKey p) (s1 s2 s3 : ZMod p) (P : ChunkedParams)
    (A outInit : Accumulator p) (chkC chkIn chkOut : CheckForCorrectness)
    (hmode : P.contribution_mode = ContributionMode.full)
    (hb : 2 ≤ P.batch_size)
    (hL2 : 2 ≤ P.powers_length)
    (hLG : P.powers_length ≤ P.powers_g1_length)
    (hszA : accumulator_sizes_ok p P A) (hszO : accumulator_sizes_ok p P outInit)
    (hnz : accumulator_nonzero p A)
    (hgen1 : A.tauG1[0]? = some 1) (hgen2 : A.tauG2[0]? = some 1)
    (hkt : key.tau ≠ 0) (hka : key.alpha ≠ 0) (hkb : key.beta ≠ 0) :
    contribute p key P A chkC outInit = Except.ok (contribute_expected p key A)
    ∧ verify_pok_and_correctness p cg2s A chkIn (contribute_expected p key A) chkOut
        (public_key_of p cg2s digest key s1 s2 s3) digest P = Except.ok () := by
  obtain ⟨hnz1, hnz2, hnz3, hnz4, hnz5⟩ := hnz
  refine ⟨contribute_full_ok p key P A outInit chkC hmode hb hLG hszA hszO (Or.inr hnz5), ?_⟩
  obtain ⟨hA1, hA2, hA3, hA4⟩ := hszA
  have hone : (1 : ZMod p) ≠ 0 := one_ne_zero
  obtain ⟨x1, hx1⟩ : ∃ v, A.tauG1[1]? = some v := by
    rw [List.getElem?_eq_getElem (by omega)]
    exact ⟨_, rfl⟩
  obtain ⟨y1, hy1⟩ : ∃ v, A.tauG2[1]? = some v := by
    rw [List.getElem?_eq_getElem (by omega)]
    exact ⟨_, rfl⟩
  obtain ⟨a0, ha0⟩ : ∃ v, A.alphaG1[0]? = some v := by
    rw [List.getElem?_eq_getElem (by omega)]
    exact ⟨_, rfl⟩
  obtain ⟨a1, ha1⟩ : ∃ v, A.alphaG1[1]? = some v := by
    rw [List.getElem?_eq_getElem (by omega)]
    exact ⟨_, rfl⟩
  obtain ⟨b0, hb0⟩ : ∃ v, A.betaG1[0]? = some v := by
    rw [List.getElem?_eq_getElem (by omega)]
    exact ⟨_, rfl⟩
  obtain ⟨b1, hb1⟩ : ∃ v, A.betaG1[1]? = some v := by
    rw [List.getElem?_eq_getElem (by omega)]
    exact ⟨_, rfl⟩
  have hx1n := hnz1 x1 (List.getElem?_mem hx1)
  have hy1n := hnz2 y1 (List.getElem?_mem hy1)
  have ha0n := hnz3 a0 (List.getElem?_mem ha0)
  have ha1n := hnz3 a1 (List.getElem?_mem ha1)
  have hb0n := hnz4 b0 (List.getElem?_mem hb0)
  have hb1n := hnz4 b1 (List.getElem?_mem hb1)
  have rin1 : read_initial_elements p A.tauG1 chkIn = Except.ok (1, x1) :=
    read_initial_elements_of p _ chkIn 1 x1 hgen1 hx1 (Or.inr ⟨hone, hx1n⟩)
  have rin2 : read_initial_elements p A.tauG2 chkIn = Except.ok (1, y1) :=
    read_initial_elements_of p _ chkIn 1 y1 hgen2 hy1 (Or.inr ⟨hone, hy1n⟩)
  have rina : read_initial_elements p A.alphaG1 chkIn = Except.ok (a0, a1) :=
    read_initial_elements_of p _ chkIn a0 a1 ha0 ha1 (Or.inr ⟨ha0n, ha1n⟩)
  have rinb : read_initial_elements p A.betaG1 chkIn = Except.ok (b0, b1) :=
    read_initial_elements_of p _ chkIn b0 b1 hb0 hb1 (Or.inr ⟨hb0n, hb1n⟩)
  have ring2 : read_element p A.betaG2 chkIn = Except.ok A.betaG2 :=
    read_element_ok p _ chkIn (Or.inr hnz5)
  have e10 : (contribute_expected p key A).tauG1[0]? = some 1 := by
    simp [contribute_expected, List.getElem?_mapIdx, hgen1]
  have e11 : (contribute_expected p key A).tauG1[1]? = some (x1 * key.tau) := by
    simp [contribute_expected, List.getElem?_mapIdx, hx1, pow_one]
  have e20 : (contribute_expected p key A).tauG2[0]? = some 1 := by
    simp [contribute_expected, List.getElem?_mapIdx, hgen2]
  have e21 : (contribute_expected p key A).tauG2[1]? = some (y1 * key.tau) := by
    simp [contribute_expected, List.getElem?_mapIdx, hy1, pow_one]
  have ea0 : (contribute_expected p key A).alphaG1[0]? = some (a0 * key.alpha) := by
    simp [contribute_expected, List.getElem?_mapIdx, ha0]
  have ea1 : (contribute_expected p key A).alphaG1[1]? =
      some (a1 * (key.tau * key.alpha)) := by
    simp [contribute_expected, List.getElem?_mapIdx, ha1, pow_one]
  have eb0 : (contribute_expected p key A).betaG1[0]? = some (b0 * key.beta) := by
    simp [contribute_expected, List.getElem?_mapIdx, hb0]
  have eb1 : (contribute_expected p key A).betaG1[1]? =
      some (b1 * (key.tau * key.beta)) := by
    simp [contribute_expected, List.getElem?_mapIdx, hb1, pow_one]
  have rout1 : read_initial_elements p (contribute_expected p key A).tauG1 chkOut =
      Except.ok (1, x1 * key.tau) :=
    read_initial_elements_of p _ chkOut 1 (x1 * key.tau) e10 e11
      (Or.inr ⟨hone, mul_ne_zero hx1n hkt⟩)
  have rout2 : read_initial_elements p (contribute_expected p key A).tauG2 chkOut =
      Except.ok (1, y1 * key.tau) :=
    read_initial_elements_of p _ chkOut 1 (y1 * key.tau) e20 e21
      (Or.inr ⟨hone, mul_ne_zero hy1n hkt⟩)
  have routa : read_initial_elements p (contribute_expected p key A).alphaG1 chkOut =
      Except.ok (a0 * key.alpha, a1 * (key.tau * key.alpha)) :=
    read_initial_elements_of p _ chkOut _ _ ea0 ea1
      (Or.inr ⟨mul_ne_zero ha0n hka, mul_ne_zero ha1n (mul_ne_zero hkt hka)⟩)
  have routb : read_initial_elements p (contribute_expected p key A).betaG1 chkOut =
      Except.ok (b0 * key.beta, b1 * (key.tau * key.beta)) :=
    read_initial_elements_of p _ chkOut _ _ eb0 eb1
      (Or.inr ⟨mul_ne_zero hb0n hkb, mul_ne_zero hb1n (mul_ne_zero hkt hkb)⟩)
  have routg : read_element p (contribute_expected p key A).betaG2 chkOut =
      Except.ok (A.betaG2 * key.beta) :=
    read_element_ok p _ chkOut (Or.inr (mul_ne_zero hnz5 hkb))
  rw [verify_header_split p cg2s A chkIn (contribute_expected p key A) chkOut
    (public_key_of p cg2s digest key s1 s2 s3) digest P (Or.inl hmode)]
  rw [header_pok_checks_ok p cg2s digest key s1 s2 s3 A (contribute_expected p key A)
    chkIn chkOut 1 x1 1 y1 a0 a1 (a1 * (key.tau * key.alpha)) b0 b1
    (b1 * (key.tau * key.beta)) A.betaG2 rin1 rout1 rin2 rout2 rina routa rinb routb
    ring2 routg]
  rw [except_ok_bind]
  exact window_subgroup_checks_ok p _ P hmode hb
    (mapIdx_ne_zero p A.tauG1 _ (fun i x hx => mul_ne_zero hx (pow_ne_zero i hkt)) hnz1)
    (mapIdx_ne_zero p A.tauG2 _ (fun i x hx => mul_ne_zero hx (pow_ne_zero i hkt)) hnz2)
    (mapIdx_ne_zero p A.alphaG1 _
      (fun i x hx => mul_ne_zero hx (mul_ne_zero (pow_ne_zero i hkt) hka)) hnz3)
    (mapIdx_ne_zero p A.betaG1 _
      (fun i x hx => mul_ne_zero hx (mul_ne_zero (pow_ne_zero i hkt) hkb)) hnz4)

/-- Witness for claim C1 over `ZMod 5` with `L = 2`, `G = 3`, batch 4,
key `(τ, α, β) = (2, 3, 4)` and a trivial hash-to-G2 model. -/
theorem c1_witness :
    (Nat.Prime 5
      ∧ (ChunkedParams.mk ContributionMode.full 0 0 4 2 3).contribution_mode =
          ContributionMode.full
      ∧ 2 ≤ (4 : ℕ) ∧ 2 ≤ (2 : ℕ) ∧ 2 ≤ (3 : ℕ)
      ∧ (init_accumulator 5 (ChunkedParams.mk ContributionMode.full 0 0 4 2 3)).tauG1[0]? =
          some 1
      ∧ (init_accumulator 5 (ChunkedParams.mk ContributionMode.full 0 0 4 2 3)).tauG2[0]? =
          some 1
      ∧ (2 : ZMod 5) ≠ 0 ∧ (3 : ZMod 5) ≠ 0 ∧ (4 : ZMod 5) ≠ 0)
    ∧ contribute 5 (PrivateKey.mk 2 3 4) (ChunkedParams.mk ContributionMode.full 0 0 4 2 3)
        (init_accumulator 5 (ChunkedParams.mk ContributionMode.full 0 0 4 2 3))
        CheckForCorrectness.both
        (init_accumulator 5 (ChunkedParams.mk ContributionMode.full 0 0 4 2 3)) =
      Except.ok (contribute_expected 5 (PrivateKey.mk 2 3 4)
        (init_accumulator 5 (ChunkedParams.mk ContributionMode.full 0 0 4 2 3)))
    ∧ verify_pok_and_correctness 5 (fun _ _ _ => 1)
        (init_accumulator 5 (ChunkedParams.mk ContributionMode.full 0 0 4 2 3))
        CheckForCorrectness.both
        (contribute_expected 5 (PrivateKey.mk 2 3 4)
          (init_accumulator 5 (ChunkedParams.mk ContributionMode.full 0 0 4 2 3)))
        CheckForCorrectness.both
        (public_key_of 5 (fun _ _ _ => 1) [] (PrivateKey.mk 2 3 4) 1 1 1) []
        (ChunkedParams.mk ContributionMode.full 0 0 4 2 3) = Except.ok () :=
  by
  have hg1 : (init_accumulator 5
      (ChunkedParams.mk ContributionMode.full 0 0 4 2 3)).tauG1[0]? = some 1 := by decide
  have hg2 : (init_accumulator 5
      (ChunkedParams.mk ContributionMode.full 0 0 4 2 3)).tauG2[0]? = some 1 := by decide
  have hsz : accumulator_sizes_ok 5 (ChunkedParams.mk ContributionMode.full 0 0 4 2 3)
      (init_accumulator 5 (ChunkedParams.mk ContributionMode.full 0 0 4 2 3)) :=
    ⟨rfl, rfl, rfl, rfl⟩
  have hnzA : accumulator_nonzero 5
      (init_accumulator 5 (ChunkedParams.mk ContributionMode.full 0 0 4 2 3)) :=
    ⟨by decide, by decide, by decide, by decide, by decide⟩
  have hkt : (PrivateKey.mk 2 3 4 : PrivateKey 5).tau ≠ 0 := by decide
  have hka : (PrivateKey.mk 2 3 4 : PrivateKey 5).alpha ≠ 0 := by decide
  have hkb : (PrivateKey.mk 2 3 4 : PrivateKey 5).beta ≠ 0 := by decide
  have hp : Fact (Nat.Prime 5) := ⟨by norm_num⟩
  have hmain := @c1 5 hp (fun _ _ _ => 1) [] (PrivateKey.mk 2 3 4) 1 1 1
    (ChunkedParams.mk ContributionMode.full 0 0 4 2 3)
    (init_accumulator 5 (ChunkedParams.mk ContributionMode.full 0 0 4 2 3))
    (init_accumulator 5 (ChunkedParams.mk ContributionMode.full 0 0 4 2 3))
    CheckForCorrectness.both CheckForCorrectness.both CheckForCorrectness.both
    rfl (by norm_num) (by norm_num) (by norm_num) hsz hsz hnzA hg1 hg2 hkt hka hkb
  exact ⟨⟨by norm_num, rfl, by norm_num, by norm_num, by norm_num, hg1, hg2,
    hkt, hka, hkb⟩, hmain.1, hmain.2⟩

theorem subSlice_length {α : Type} (l : List α) (a b : ℕ) :
    (subSlice l a b).length = min (b - a) (l.length - a) := by
  simp [subSlice]

theorem rec_len_le (rec : List ℕ → List ℕ) (ein eout : ℕ)
    (hr : ∀ s, (rec s).length = s.length / ein * eout) (hin : 0 < ein)
    (inp : List ℕ) (a b n : ℕ) (hb : b - a ≤ n * ein) :
    (rec (subSlice inp a b)).length ≤ n * eout := by
  rw [hr, subSlice_length]
  have h1 : min (b - a) (inp.length - a) ≤ n * ein := le_trans (min_le_left _ _) hb
  have h2 : min (b - a) (inp.length - a) / ein ≤ n := by
    have h3 := Nat.div_le_div_right (c := ein) h1
    rwa [Nat.mul_div_cancel n hin] at h3
  exact Nat.mul_le_mul_right eout h2

theorem rec_len_eq (rec : List ℕ → List ℕ) (ein eout : ℕ)
    (hr : ∀ s, (rec s).length = s.length / ein * eout) (hin : 0 < ein)
    (inp : List ℕ) (a : ℕ) (hlen : a + ein ≤ inp.length) :
    (rec (subSlice inp a (a + ein))).length = eout := by
  rw [hr, subSlice_length]
  have h1 : min (a + ein - a) (inp.length - a) = ein := by omega
  rw [h1, Nat.div_self hin, one_mul]

theorem outside_of_bound (off dLen aLen j : ℕ) (hImp : off ≤ j → off + dLen ≤ j)
    (hL : aLen ≤ dLen) : j < off ∨ off + aLen ≤ j := by
  by_cases h : off ≤ j
  · exact Or.inr (by have := hImp h; omega)
  · exact Or.inl (by omega)

theorem combine_step_frame (pp : CombineParams) (recG1 recG2 : List ℕ → List ℕ)
    (hr1 : ∀ s, (recG1 s).length = s.length / pp.g1_in * pp.g1_out)
    (hr2 : ∀ s, (recG2 s).length = s.length / pp.g2_in * pp.g2_out)
    (h1p : 0 < pp.g1_in) (h2p : 0 < pp.g2_in)
    (k : ℕ) (inp buf : List ℕ) (j : ℕ) (hj : ¬ in_chunk_write_range pp k j) :
    (combine_step pp recG1 recG2 k inp buf)[j]? = buf[j]? := by
  simp only [in_chunk_write_range] at hj
  push_neg at hj
  obtain ⟨hjT, hjO, hjB⟩ := hj
  unfold combine_step
  dsimp only
  set e1 := (chunk_element_sizes_chunked pp.chunk_size k pp.powers_g1_length
    pp.powers_length).1 with he1
  set e2 := (chunk_element_sizes_chunked pp.chunk_size k pp.powers_g1_length
    pp.powers_length).2 with he2
  have L1 : (recG1 (subSlice inp 64 (64 + e1 * pp.g1_in))).length ≤ e1 * pp.g1_out :=
    rec_len_le recG1 _ _ hr1 h1p inp _ _ _ (by omega)
  have L2 : (recG2 (subSlice inp (64 + e1 * pp.g1_in)
      (64 + e1 * pp.g1_in + e2 * pp.g2_in))).length ≤ e2 * pp.g2_out :=
    rec_len_le recG2 _ _ hr2 h2p inp _ _ _ (by omega)
  have L3 : (recG1 (subSlice inp (64 + e1 * pp.g1_in + e2 * pp.g2_in)
      (64 + e1 * pp.g1_in + e2 * pp.g2_in + e2 * pp.g1_in))).length ≤ e2 * pp.g1_out :=
    rec_len_le recG1 _ _ hr1 h1p inp _ _ _ (by omega)
  have L4 : (recG1 (subSlice inp (64 + e1 * pp.g1_in + e2 * pp.g2_in + e2 * pp.g1_in)
      (64 + e1 * pp.g1_in + e2 * pp.g2_in + e2 * pp.g1_in + e2 * pp.g1_in))).length ≤
      e2 * pp.g1_out :=
    rec_len_le recG1 _ _ hr1 h1p inp _ _ _ (by omega)
  have L5 : (recG2 (subSlice inp
      (64 + e1 * pp.g1_in + e2 * pp.g2_in + e2 * pp.g1_in + e2 * pp.g1_in)
      (64 + e1 * pp.g1_in + e2 * pp.g2_in + e2 * pp.g1_in + e2 * pp.g1_in +
        pp.g2_in))).length ≤ 1 * pp.g2_out :=
    rec_len_le recG2 _ _ hr2 h2p inp _ _ 1 (by omega)
  by_cases hk0 : k = 0
  · rw [if_pos hk0]
    rw [writeAt_getElem?_outside _ _ _ _
      (outside_of_bound _ pp.g2_out _ _ (hjB hk0) (by omega))]
    by_cases hkL : k * pp.chunk_size < pp.powers_length
    · rw [if_pos hkL]
      obtain ⟨hO1, hO2, hO3⟩ := hjO hkL
      rw [writeAt_getElem?_outside _ _ _ _ (outside_of_bound _ _ _ _ hO3 L4)]
      rw [writeAt_getElem?_outside _ _ _ _ (outside_of_bound _ _ _ _ hO2 L3)]
      rw [writeAt_getElem?_outside _ _ _ _ (outside_of_bound _ _ _ _ hO1 L2)]
      rw [writeAt_getElem?_outside _ _ _ _ (outside_of_bound _ _ _ _ hjT L1)]
    · rw [if_neg hkL]
      rw [writeAt_getElem?_outside _ _ _ _ (outside_of_bound _ _ _ _ hjT L1)]
  · rw [if_neg hk0]
    by_cases hkL : k * pp.chunk_size < pp.powers_length
    · rw [if_pos hkL]
      obtain ⟨hO1, hO2, hO3⟩ := hjO hkL
      rw [writeAt_getElem?_outside _ _ _ _ (outside_of_bound _ _ _ _ hO3 L4)]
      rw [writeAt_getElem?_outside _ _ _ _ (outside_of_bound _ _ _ _ hO2 L3)]
      rw [writeAt_getElem?_outside _ _ _ _ (outside_of_bound _ _ _ _ hO1 L2)]
      rw [writeAt_getElem?_outside _ _ _ _ (outside_of_bound _ _ _ _ hjT L1)]
    · rw [if_neg hkL]
      rw [writeAt_getElem?_outside _ _ _ _ (outside_of_bound _ _ _ _ hjT L1)]

theorem combine_step_beta_frame (pp : CombineParams) (recG1 recG2 : List ℕ → List ℕ)
    (hr1 : ∀ s, (recG1 s).length = s.length / pp.g1_in * pp.g1_out)
    (hr2 : ∀ s, (recG2 s).length = s.length / pp.g2_in * pp.g2_out)
    (h1p : 0 < pp.g1_in) (h2p : 0 < pp.g2_in)
    (k : ℕ) (inp buf : List ℕ) (j : ℕ) (hk : 0 < k) (hj : beta_g2_base pp ≤ j) :
    (combine_step pp recG1 recG2 k inp buf)[j]? = buf[j]? := by
  apply combine_step_frame pp recG1 recG2 hr1 hr2 h1p h2p
  simp only [in_chunk_write_range]
  unfold beta_g2_base beta_g1_base alpha_g1_base tau_g2_base tau_g1_base at hj ⊢
  set e1 := (chunk_element_sizes_chunked pp.chunk_size k pp.powers_g1_length
    pp.powers_length).1 with he1
  set e2 := (chunk_element_sizes_chunked pp.chunk_size k pp.powers_g1_length
    pp.powers_length).2 with he2
  have hT1 : e1 = 0 ∨
      k * pp.chunk_size * pp.g1_out + e1 * pp.g1_out ≤
        pp.powers_g1_length * pp.g1_out := by
    by_cases h : k * pp.chunk_size ≤ pp.powers_g1_length
    · right
      rw [← Nat.add_mul]
      apply Nat.mul_le_mul_right
      rw [he1]
      simp only [chunk_element_sizes_chunked]
      omega
    · left
      rw [he1]
      simp only [chunk_element_sizes_chunked]
      omega
  have hT2 : k * pp.chunk_size < pp.powers_length →
      k * pp.chunk_size * pp.g2_out + e2 * pp.g2_out ≤
        pp.powers_length * pp.g2_out := by
    intro h
    rw [← Nat.add_mul]
    apply Nat.mul_le_mul_right
    rw [he2]
    simp only [chunk_element_sizes_chunked]
    omega
  have hT3 : k * pp.chunk_size < pp.powers_length →
      k * pp.chunk_size * pp.g1_out + e2 * pp.g1_out ≤
        pp.powers_length * pp.g1_out := by
    intro h
    rw [← Nat.add_mul]
    apply Nat.mul_le_mul_right
    rw [he2]
    simp only [chunk_element_sizes_chunked]
    omega
  rintro (⟨h1, h2⟩ | ⟨hkL, (⟨h1, h2⟩ | ⟨h1, h2⟩ | ⟨h1, h2⟩)⟩ | ⟨h0, _⟩)
  · rcases hT1 with h | h
    · rw [h, zero_mul] at h2
      omega
    · omega
  · have := hT2 hkL
    omega
  · have := hT3 hkL
    omega
  · have := hT3 hkL
    omega
  · omega

theorem combine_aux_beta_frame (pp : CombineParams) (recG1 recG2 : List ℕ → List ℕ)
    (hr1 : ∀ s, (recG1 s).length = s.length / pp.g1_in * pp.g1_out)
    (hr2 : ∀ s, (recG2 s).length = s.length / pp.g2_in * pp.g2_out)
    (h1p : 0 < pp.g1_in) (h2p : 0 < pp.g2_in) (j : ℕ) (hj : beta_g2_base pp ≤ j) :
    ∀ (rest : List (List ℕ)) (k0 : ℕ), 1 ≤ k0 → ∀ buf : List ℕ,
      (combine_aux pp recG1 recG2 k0 rest buf)[j]? = buf[j]? := by
  intro rest
  induction rest with
  | nil => intro k0 _ buf; rfl
  | cons inp rest ih =>
    intro k0 hk0 buf
    show (combine_aux pp recG1 recG2 (k0 + 1) rest
      (combine_step pp recG1 recG2 k0 inp buf))[j]? = _
    rw [ih (k0 + 1) (by omega),
      combine_step_beta_frame pp recG1 recG2 hr1 hr2 h1p h2p k0 inp buf j (by omega) hj]

/-- Claim C6: during `combine`, each chunk `k` writes only the byte
sub-ranges of the output belonging to chunk `k`; any chunk with positive
index leaves the βG2 singleton region (and everything after it) unchanged;
chunk 0 writes the βG2 region from its own input's βG2 bytes; and over a
whole run the βG2 region equals what processing chunk 0 wrote — it is
written exactly once. -/
theorem c6 (pp : CombineParams) (recG1 recG2 : List ℕ → List ℕ)
    (hr1 : ∀ s, (recG1 s).length = s.length / pp.g1_in * pp.g1_out)
    (hr2 : ∀ s, (recG2 s).length = s.length / pp.g2_in * pp.g2_out)
    (h1p : 0 < pp.g1_in) (h2p : 0 < pp.g2_in) :
    (∀ k inp buf j, ¬ in_chunk_write_range pp k j →
      (combine_step pp recG1 recG2 k inp buf)[j]? = buf[j]?)
    ∧ (∀ k inp buf j, 0 < k → beta_g2_base pp ≤ j →
      (combine_step pp recG1 recG2 k inp buf)[j]? = buf[j]?)
    ∧ (∀ inp buf j, j < pp.g2_out → beta_g2_base pp + pp.g2_out ≤ buf.length →
        64 + (chunk_element_sizes_chunked pp.chunk_size 0 pp.powers_g1_length
            pp.powers_length).1 * pp.g1_in +
          (chunk_element_sizes_chunked pp.chunk_size 0 pp.powers_g1_length
            pp.powers_length).2 * pp.g2_in +
          (chunk_element_sizes_chunked pp.chunk_size 0 pp.powers_g1_length
            pp.powers_length).2 * pp.g1_in +
          (chunk_element_sizes_chunked pp.chunk_size 0 pp.powers_g1_length
            pp.powers_length).2 * pp.g1_in + pp.g2_in ≤ inp.length →
        (combine_step pp recG1 recG2 0 inp buf)[beta_g2_base pp + j]? =
          (recG2 (subSlice inp
            (64 + (chunk_element_sizes_chunked pp.chunk_size 0 pp.powers_g1_length
                pp.powers_length).1 * pp.g1_in +
              (chunk_element_sizes_chunked pp.chunk_size 0 pp.powers_g1_length
                pp.powers_length).2 * pp.g2_in +
              (chunk_element_sizes_chunked pp.chunk_size 0 pp.powers_g1_length
                pp.powers_length).2 * pp.g1_in +
              (chunk_element_sizes_chunked pp.chunk_size 0 pp.powers_g1_length
                pp.powers_length).2 * pp.g1_in)
            (64 + (chunk_element_sizes_chunked pp.chunk_size 0 pp.powers_g1_length
                pp.powers_length).1 * pp.g1_in +
              (chunk_element_sizes_chunked pp.chunk_size 0 pp.powers_g1_length
                pp.powers_length).2 * pp.g2_in +
              (chunk_element_sizes_chunked pp.chunk_size 0 pp.powers_g1_length
                pp.powers_length).2 * pp.g1_in +
              (chunk_element_sizes_chunked pp.chunk_size 0 pp.powers_g1_length
                pp.powers_length).2 * pp.g1_in + pp.g2_in)))[j]?)
    ∧ (∀ (inp0 : List ℕ) (rest : List (List ℕ)) (buf : List ℕ) (j : ℕ),
        beta_g2_base pp ≤ j →
        (combine pp recG1 recG2 (inp0 :: rest) buf)[j]? =
          (combine_step pp recG1 recG2 0 inp0 buf)[j]?) := by
  refine ⟨fun k inp buf j hj =>
      combine_step_frame pp recG1 recG2 hr1 hr2 h1p h2p k inp buf j hj,
    fun k inp buf j hk hj =>
      combine_step_beta_frame pp recG1 recG2 hr1 hr2 h1p h2p k inp buf j hk hj,
    ?_, ?_⟩
  · intro inp buf j hjlt hbuf hinp
    have hd := rec_len_eq recG2 pp.g2_in pp.g2_out hr2 h2p inp
      (64 + (chunk_element_sizes_chunked pp.chunk_size 0 pp.powers_g1_length
          pp.powers_length).1 * pp.g1_in +
        (chunk_element_sizes_chunked pp.chunk_size 0 pp.powers_g1_length
          pp.powers_length).2 * pp.g2_in +
        (chunk_element_sizes_chunked pp.chunk_size 0 pp.powers_g1_length
          pp.powers_length).2 * pp.g1_in +
        (chunk_element_sizes_chunked pp.chunk_size 0 pp.powers_g1_length
          pp.powers_length).2 * pp.g1_in) hinp
    unfold combine_step
    dsimp only
    rw [if_pos rfl]
    have hgen : ∀ T : List ℕ, T.length = buf.length →
        (writeAt T (beta_g2_base pp)
          (recG2 (subSlice inp
            (64 + (chunk_element_sizes_chunked pp.chunk_size 0 pp.powers_g1_length
                pp.powers_length).1 * pp.g1_in +
              (chunk_element_sizes_chunked pp.chunk_size 0 pp.powers_g1_length
                pp.powers_length).2 * pp.g2_in +
              (chunk_element_sizes_chunked pp.chunk_size 0 pp.powers_g1_length
                pp.powers_length).2 * pp.g1_in +
              (chunk_element_sizes_chunked pp.chunk_size 0 pp.powers_g1_length
                pp.powers_length).2 * pp.g1_in)
            (64 + (chunk_element_sizes_chunked pp.chunk_size 0 pp.powers_g1_length
                pp.powers_length).1 * pp.g1_in +
              (chunk_element_sizes_chunked pp.chunk_size 0 pp.powers_g1_length
                pp.powers_length).2 * pp.g2_in +
              (chunk_element_sizes_chunked pp.chunk_size 0 pp.powers_g1_length
                pp.powers_length).2 * pp.g1_in +
              (chunk_element_sizes_chunked pp.chunk_size 0 pp.powers_g1_length
                pp.powers_length).2 * pp.g1_in + pp.g2_in))))[beta_g2_base pp + j]? =
          (recG2 (subSlice inp
            (64 + (chunk_element_sizes_chunked pp.chunk_size 0 pp.powers_g1_length
                pp.powers_length).1 * pp.g1_in +
              (chunk_element_sizes_chunked pp.chunk_size 0 pp.powers_g1_length
                pp.powers_length).2 * pp.g2_in +
              (chunk_element_sizes_chunked pp.chunk_size 0 pp.powers_g1_length
                pp.powers_length).2 * pp.g1_in +
              (chunk_element_sizes_chunked pp.chunk_size 0 pp.powers_g1_length
                pp.powers_length).2 * pp.g1_in)
            (64 + (chunk_element_sizes_chunked pp.chunk_size 0 pp.powers_g1_length
                pp.powers_length).1 * pp.g1_in +
              (chunk_element_sizes_chunked pp.chunk_size 0 pp.powers_g1_length
                pp.powers_length).2 * pp.g2_in +
              (chunk_element_sizes_chunked pp.chunk_size 0 pp.powers_g1_length
                pp.powers_length).2 * pp.g1_in +
              (chunk_element_sizes_chunked pp.chunk_size 0 pp.powers_g1_length
                pp.powers_length).2 * pp.g1_in + pp.g2_in)))[j]? := by
      intro T hT
      rw [writeAt_getElem?_inside _ _ _ _ (Nat.le_add_right _ _)
        (by rw [hd]; omega) (by rw [hT]; omega)]
      have hsub : beta_g2_base pp + j - beta_g2_base pp = j := by omega
      rw [hsub]
    apply hgen
    split_ifs <;> simp [writeAt_length]
  · intro inp0 rest buf j hj
    show (combine_aux pp recG1 recG2 1 rest
      (combine_step pp recG1 recG2 0 inp0 buf))[j]? = _
    exact combine_aux_beta_frame pp recG1 recG2 hr1 hr2 h1p h2p j hj rest 1 le_rfl _

/-- Witness for C6: concrete run of `combine_step` on chunk 0 with unit
element sizes, showing the βG2 byte of the output comes from the input's
βG2 slice. -/
theorem c6_witness :
    (combine_step ⟨1, 1, 1, 1, 2, 3, 2⟩ (fun s => List.replicate s.length 0)
        (fun s => List.replicate s.length 0) 0 (List.replicate 80 7)
        (List.replicate 80 9))[73]? = some 0 := by
  have h := (c6 ⟨1, 1, 1, 1, 2, 3, 2⟩ (fun s => List.replicate s.length 0)
      (fun s => List.replicate s.length 0)
      (fun s => by simp) (fun s => by simp)
      (by decide) (by decide)).2.2.1
      (List.replicate 80 7) (List.replicate 80 9) 0
      (by decide) (by decide) (by decide)
  exact h
